import Mathlib

/-!
# SnakeGame (src/script.js): a shallow embedding and its verified properties

The class `SnakeGame` of `src/script.js` is embedded as a record of its logic-bearing
fields together with three pieces of the browser environment the methods interact with:

* `overlayShown`: whether the element `gameOverOverlay` carries the class `show`;
* `pendingTimers`: how many `setTimeout(() => this.gameLoop(), ...)` callbacks are armed
  and have not fired yet (the script never calls `clearTimeout`);
* `randomCalls`: how many times `Math.random()` has been called so far.  The value of the
  `n`-th call is `rnd n` for a stream `rnd : Nat → ℚ` passed to every method that draws.

Grid coordinates are integers and counters are naturals.  A draw of `Math.random()` scaled
by the grid size is taken exactly (in doubles such a product can land in the neighbouring
cell, never off the grid).  The two products of `levelUp()` are IEEE-754 double products:
the exact product rounded to the nearest double, ties to even (`toDouble`), the literals
`0.9` and `1.1` being the doubles nearest to `9/10` and `11/10`; `gameSpeed` is therefore
a rational that is always a double.  Canvas sizing, drawing and the HUD texts only read
the state and are left out.  The `do ... while` loop of `generateApple` runs under a fuel
bound: `none` means that the loop did not finish within `fuel` iterations, and a method
that calls it returns `none` as well.

The file has two parts: the embedding (definitions), then the theorems.  Theorems whose
doc comment starts with a claim number `C1` to `C10` settle the corresponding property of
the specification; the others are lemmas.
-/

/-- A grid cell `{ x, y }`; directions are cells as well (`{ x: 1, y: 0 }`, ...). -/
structure Cell where
  x : Int
  y : Int
deriving DecidableEq, Repr

/-- The value of `e.key` in the `keydown` listener: the four arrows, or anything else. -/
inductive Key where
  | ArrowUp
  | ArrowDown
  | ArrowLeft
  | ArrowRight
  | other
deriving DecidableEq, Repr

/-- The fields of `class SnakeGame` (constructor, lines 9-33) plus the timer queue and the
position in the `Math.random()` stream. -/
structure SnakeGame where
  gameRunning : Bool
  score : Nat
  level : Nat
  speed : Int
  gameSpeed : ℚ
  gridWidth : Int
  gridHeight : Int
  snake : List Cell
  direction : Cell
  nextDirection : Cell
  apple : Cell
  currentSnakeColor : Nat
  currentBackgroundColor : Nat
  overlayShown : Bool
  pendingTimers : Nat
  randomCalls : Nat
deriving DecidableEq

namespace SnakeGame

/-- `Math.floor` on exact numbers. -/
def mathFloor (q : ℚ) : Int := ⌊q⌋

/-- `Math.round` on exact numbers: the nearest integer, halves rounded up. -/
def mathRound (q : ℚ) : Int := ⌊q + 1 / 2⌋

/-- The number of binary digits of `n` (`fuel` bounds the recursion; `n` itself is enough). -/
def bitLength : Nat → Nat → Nat
  | 0, _ => 0
  | fuel + 1, n => if n = 0 then 0 else bitLength fuel (n / 2) + 1

/-- The binary exponent of a non-zero number: the `e` with `2^e ≤ |q| < 2^(e+1)`. -/
def binade (q : ℚ) : Int :=
  let e0 : Int := (bitLength q.num.natAbs q.num.natAbs : Int) - (bitLength q.den q.den : Int)
  if (2 : ℚ) ^ e0 ≤ |q| then e0 else e0 - 1

/-- The nearest integer, a tie going to the even one. -/
def roundHalfEven (q : ℚ) : Int :=
  if q - ⌊q⌋ < 1 / 2 then ⌊q⌋
  else if 1 / 2 < q - ⌊q⌋ then ⌊q⌋ + 1
  else if ⌊q⌋ % 2 = 0 then ⌊q⌋ else ⌊q⌋ + 1

/-- The IEEE-754 binary64 value nearest to `q` (round to nearest, ties to even): a 53-bit
significand scaled by the binade of `q`, the exponent being held at -1022 for subnormal
values.  Overflow to `Infinity` (beyond about `1.8e308`) is outside the model. -/
def toDouble (q : ℚ) : ℚ :=
  if q = 0 then 0
  else
    (roundHalfEven (q / 2 ^ (max (binade q) (-1022) - 52)) : ℚ) *
      2 ^ (max (binade q) (-1022) - 52)

/-- Length of `this.snakeColors` (line 30). -/
def snakeColorsLength : Nat := 6

/-- Length of `this.backgroundColors` (line 31). -/
def backgroundColorsLength : Nat := 3

/-- The object right after the field initialisers of the constructor (lines 9-33), before
`this.init()` runs.  The comment on line 16 reads "50x40"; the assignments on lines 17-18
give 40 columns (`gridWidth`) and 50 rows (`gridHeight`), and those are the values the wall
test and the apple placement use. -/
def constructed : SnakeGame where
  gameRunning := false
  score := 0
  level := 1
  speed := 1
  gameSpeed := 150
  gridWidth := 40
  gridHeight := 50
  snake := []
  direction := ⟨1, 0⟩
  nextDirection := ⟨1, 0⟩
  apple := ⟨0, 0⟩
  currentSnakeColor := 0
  currentBackgroundColor := 0
  overlayShown := false
  pendingTimers := 0
  randomCalls := 0

/-- The test `segment.x === c.x && segment.y === c.y` run over the snake (`Array.some`,
and the `for ... of` scan of `update`). -/
def occupies (snake : List Cell) (c : Cell) : Bool :=
  snake.any fun segment => segment.x == c.x && segment.y == c.y

/-- The candidate built by one iteration of the loop of `generateApple` (lines 196-199):
two draws, `x` first. -/
def candidate (rnd : Nat → ℚ) (s : SnakeGame) : Cell where
  x := mathFloor (rnd s.randomCalls * s.gridWidth)
  y := mathFloor (rnd (s.randomCalls + 1) * s.gridHeight)

/-- `generateApple()` (lines 193-205): draw candidates until one is off the snake. -/
def generateApple (rnd : Nat → ℚ) : Nat → SnakeGame → Option SnakeGame
  | 0, _ => none
  | fuel + 1, s =>
    let newApple := candidate rnd s
    let s1 := { s with randomCalls := s.randomCalls + 2 }
    if occupies s.snake newApple then generateApple rnd fuel s1
    else some { s1 with apple := newApple }

/-- `levelUp()` (lines 179-191).  `this.level * 1.1` and `this.gameSpeed * 0.9` are double
products; `Math.round` and `Math.max` are exact on doubles. -/
def levelUp (s : SnakeGame) : SnakeGame :=
  { s with
    level := s.level + 1
    speed := mathRound (toDouble (((s.level + 1 : Nat) : ℚ) * toDouble (11 / 10)))
    gameSpeed := max 50 (toDouble (s.gameSpeed * toDouble (9 / 10)))
    currentSnakeColor := (s.currentSnakeColor + 1) % snakeColorsLength
    currentBackgroundColor := (s.currentBackgroundColor + 1) % backgroundColorsLength }

/-- `gameOver()` (lines 279-283) with `showGameOver()`. -/
def gameOver (s : SnakeGame) : SnakeGame :=
  { s with gameRunning := false, overlayShown := true }

/-- `hideGameOver()` (lines 289-291). -/
def hideGameOver (s : SnakeGame) : SnakeGame :=
  { s with overlayShown := false }

/-- The cell `update()` computes in lines 145-147 from the first segment and the direction
it has just committed. -/
def nextHead (first d : Cell) : Cell where
  x := first.x + d.x
  y := first.y + d.y

/-- The wall test of lines 150-151. -/
def outside (s : SnakeGame) (head : Cell) : Prop :=
  head.x < 0 ∨ head.x ≥ s.gridWidth ∨ head.y < 0 ∨ head.y ≥ s.gridHeight

instance (s : SnakeGame) (head : Cell) : Decidable (outside s head) := by
  unfold outside; infer_instance

/-- `update()` (lines 140-177).  On an empty snake `this.snake[0]` is `undefined`, the
head has `NaN` coordinates, every comparison is false, and the `unshift` is undone by the
`pop`: only the direction is committed. -/
def update (rnd : Nat → ℚ) (fuel : Nat) (s : SnakeGame) : Option SnakeGame :=
  let s0 := { s with direction := s.nextDirection }
  match s0.snake with
  | [] => some s0
  | first :: _ =>
    let head := nextHead first s0.direction
    if outside s0 head then some (gameOver s0)
    else if occupies s0.snake head then some (gameOver s0)
    else
      let s1 := { s0 with snake := head :: s0.snake }
      if head.x = s1.apple.x ∧ head.y = s1.apple.y then
        (generateApple rnd fuel { s1 with score := s1.score + 1 }).map levelUp
      else some { s1 with snake := s1.snake.dropLast }

/-- `gameLoop()` (lines 129-138): one guarded tick, then one more armed callback. -/
def gameLoop (rnd : Nat → ℚ) (fuel : Nat) (s : SnakeGame) : Option SnakeGame :=
  if s.gameRunning = false then some s
  else (update rnd fuel s).map fun s1 => { s1 with pendingTimers := s1.pendingTimers + 1 }

/-- Lines 106-122 of `startGame()`: the field resets before the apple is placed. -/
def resetFields (s : SnakeGame) : SnakeGame :=
  let centerX := s.gridWidth / 2
  let centerY := s.gridHeight / 2
  { s with
    gameRunning := true
    score := 0
    level := 1
    speed := 1
    gameSpeed := 150
    snake := [⟨centerX, centerY⟩, ⟨centerX - 1, centerY⟩, ⟨centerX - 2, centerY⟩]
    direction := ⟨1, 0⟩
    nextDirection := ⟨1, 0⟩ }

/-- `startGame()` (lines 105-127): reset, place the apple, and enter `gameLoop()`. -/
def startGame (rnd : Nat → ℚ) (fuel : Nat) (s : SnakeGame) : Option SnakeGame :=
  (generateApple rnd fuel (resetFields s)).bind (gameLoop rnd fuel)

/-- `init()` (lines 38-42); `setupCanvas` and `setupEventListeners` do not touch the
modelled fields. -/
def init (rnd : Nat → ℚ) (fuel : Nat) (s : SnakeGame) : Option SnakeGame :=
  startGame rnd fuel s

/-- The `keydown` listener (lines 65-91). -/
def keydown (k : Key) (s : SnakeGame) : SnakeGame :=
  if s.gameRunning = false then s
  else
    match k with
    | .ArrowUp => if s.direction.y = 0 then { s with nextDirection := ⟨0, -1⟩ } else s
    | .ArrowDown => if s.direction.y = 0 then { s with nextDirection := ⟨0, 1⟩ } else s
    | .ArrowLeft => if s.direction.x = 0 then { s with nextDirection := ⟨-1, 0⟩ } else s
    | .ArrowRight => if s.direction.x = 0 then { s with nextDirection := ⟨1, 0⟩ } else s
    | .other => s

/-- The `click` listener of the restart button (lines 94-97). -/
def restartClick (rnd : Nat → ℚ) (fuel : Nat) (s : SnakeGame) : Option SnakeGame :=
  startGame rnd fuel (hideGameOver s)

/-- One armed `setTimeout` callback fires: it leaves the queue and runs `gameLoop()`. -/
def timerFires (rnd : Nat → ℚ) (fuel : Nat) (s : SnakeGame) : Option SnakeGame :=
  if s.pendingTimers = 0 then none
  else gameLoop rnd fuel { s with pendingTimers := s.pendingTimers - 1 }

/-- What the browser can deliver to the page. -/
inductive Event where
  | timer
  | key (k : Key)
  | restart
deriving DecidableEq, Repr

/-- The handler run for an event. -/
def handle (rnd : Nat → ℚ) (fuel : Nat) (s : SnakeGame) : Event → Option SnakeGame
  | .timer => timerFires rnd fuel s
  | .key k => some (keydown k s)
  | .restart => restartClick rnd fuel s

/-- The page after `new SnakeGame()` and then the given events; the list holds the latest
event first. -/
def run (rnd : Nat → ℚ) (fuel : Nat) : List Event → Option SnakeGame
  | [] => init rnd fuel constructed
  | e :: es => (run rnd fuel es).bind fun s => handle rnd fuel s e

/-- States of the page: `new SnakeGame()` followed by any finite sequence of handled
events, each handler having returned. -/
inductive Reachable (rnd : Nat → ℚ) : SnakeGame → Prop where
  | construct (fuel : Nat) (s : SnakeGame) :
      init rnd fuel constructed = some s → Reachable rnd s
  | step (fuel : Nat) (e : Event) (s s1 : SnakeGame) :
      Reachable rnd s → handle rnd fuel s e = some s1 → Reachable rnd s1

/-- The random source returns values in `[0, 1)`. -/
def UnitRange (rnd : Nat → ℚ) : Prop := ∀ n, 0 ≤ rnd n ∧ rnd n < 1

/-- The four unit directions. -/
def directions : List Cell := [⟨1, 0⟩, ⟨-1, 0⟩, ⟨0, 1⟩, ⟨0, -1⟩]

/-- The direction opposite to `d`. -/
def opposite (d : Cell) : Cell := ⟨-d.x, -d.y⟩

/-- The arrow key that requests direction `d` (`other` when `d` is no unit direction). -/
def keyFor (d : Cell) : Key :=
  if d = ⟨0, -1⟩ then .ArrowUp
  else if d = ⟨0, 1⟩ then .ArrowDown
  else if d = ⟨-1, 0⟩ then .ArrowLeft
  else if d = ⟨1, 0⟩ then .ArrowRight
  else .other

/-- A cell lies on the grid of `s`. -/
def inGrid (s : SnakeGame) (c : Cell) : Prop :=
  0 ≤ c.x ∧ c.x < s.gridWidth ∧ 0 ≤ c.y ∧ c.y < s.gridHeight

instance (s : SnakeGame) (c : Cell) : Decidable (inGrid s c) := by
  unfold inGrid; infer_instance

/-- A random source whose every draw is `0`: each candidate apple is the cell `(0, 0)`. -/
def rndZero : Nat → ℚ := fun _ => 0

/-- A running game on the constructor's 40 × 50 grid with the given snake, the given
direction both committed and pending, and the given apple. -/
def scenario (snake : List Cell) (d apple : Cell) : SnakeGame :=
  { constructed with
    gameRunning := true, snake := snake, direction := d, nextDirection := d, apple := apple }

/-- The tick interval after `n` apples: `n` times line 184, `Math.max(50, gameSpeed * 0.9)`
in double arithmetic, from the 150 of `startGame()`. -/
def intervalAfter (n : Nat) : ℚ :=
  (fun g : ℚ => max 50 (toDouble (g * toDouble (9 / 10))))^[n] 150

/-- The facts that hold between two handlers of a started game.  Only the position of the
apple depends on the random source staying in `[0, 1)`. -/
structure Sound (rnd : Nat → ℚ) (s : SnakeGame) : Prop where
  width : s.gridWidth = 40
  height : s.gridHeight = 50
  nonempty : s.snake ≠ []
  nodup : s.snake.Nodup
  onGrid : ∀ c ∈ s.snake, inGrid s c
  appleFree : s.apple ∉ s.snake
  appleOnGrid : UnitRange rnd → inGrid s s.apple
  dir : s.direction ∈ directions
  next : s.nextDirection ∈ directions
  noReverse : s.nextDirection ≠ opposite s.direction
  levelScore : s.level = s.score + 1
  speedForm : s.gameSpeed = intervalAfter s.score

/-- The page right after `new SnakeGame()` when every draw is `0`: the apple went to
`(0, 0)` and the first tick has already moved the snake one cell to the right. -/
def started : SnakeGame :=
  { constructed with
    gameRunning := true
    snake := [⟨21, 25⟩, ⟨20, 25⟩, ⟨19, 25⟩]
    pendingTimers := 1
    randomCalls := 2 }

/-- The page of `started` after 18 further ticks to the right and a 19th into the wall. -/
def crashed : SnakeGame :=
  { constructed with
    snake := [⟨39, 25⟩, ⟨38, 25⟩, ⟨37, 25⟩]
    overlayShown := true
    pendingTimers := 1
    randomCalls := 2 }

/-- The key presses handled one after the other, first of the list first. -/
def keydowns (ks : List Key) (s : SnakeGame) : SnakeGame :=
  ks.foldl (fun st k => keydown k st) s

/-- The four cells the snake can cover while `startGame()` runs on the 40 × 50 grid. -/
def startCells : List Cell := [⟨21, 25⟩, ⟨20, 25⟩, ⟨19, 25⟩, ⟨18, 25⟩]

/-- The cells `(x, y)` of one row, for the given `x` in order. -/
def rowCells (y : Int) (xs : List Nat) : List Cell := xs.map fun x => ⟨(x : Int), y⟩

/-- The numbers `a, a + 1, ..., b`. -/
def upTo (a b : Nat) : List Nat := (List.range (b + 1 - a)).map (· + a)

/-- Columns 1 to 39 of row `y`, left to right on odd rows and right to left on even ones. -/
def serpRow (y : Nat) : List Cell :=
  if y % 2 = 1 then rowCells y (upTo 1 39) else rowCells y (upTo 1 39).reverse

/-- A tour of the whole 40 × 50 grid that begins with the start snake: along row 25 from
`(18,25)` to the right wall, back and forth through rows 24 to 1, along row 0 to the left
wall, down column 0, back and forth through rows 49 to 26, and along row 25 from `(1,25)`
to `(17,25)`. -/
def tour : List Cell :=
  rowCells 25 (upTo 18 39)
  ++ ((upTo 1 24).reverse.map serpRow).flatten
  ++ rowCells 0 (upTo 0 39).reverse
  ++ (upTo 1 49).map (fun y => (⟨0, (y : Int)⟩ : Cell))
  ++ ((upTo 26 49).reverse.map serpRow).flatten
  ++ rowCells 25 (upTo 1 17)

/-- The position of a grid cell on `tour`. -/
def tourIndex (c : Cell) : Int :=
  if c.x = 0 then (if c.y = 0 then 997 else 997 + c.y)
  else if c.y = 0 then 997 - c.x
  else if c.y = 25 then (if 18 ≤ c.x then c.x - 18 else 1982 + c.x)
  else if c.y < 25 then 22 + (24 - c.y) * 39 + (if c.y % 2 = 0 then 39 - c.x else c.x - 1)
  else 1047 + (49 - c.y) * 39 + (if c.y % 2 = 1 then c.x - 1 else 39 - c.x)

/-- Every cell of the list is one unit step away from the cell before it. -/
def stepsOk : List Cell → Bool
  | a :: b :: rest =>
    decide ((⟨b.x - a.x, b.y - a.y⟩ : Cell) ∈ directions) && stepsOk (b :: rest)
  | _ => true

/-- A random source in `[0, 1)` that makes the `j`-th candidate of the game the cell
number `3 + j` of `tour` (the middle of that cell, scaled to the unit interval). -/
def rndTour (n : Nat) : ℚ :=
  let c := tour.getD (3 + n / 2) ⟨0, 0⟩
  if n % 2 = 0 then (2 * (c.x : ℚ) + 1) / 80 else (2 * (c.y : ℚ) + 1) / 100

/-- The page right after `new SnakeGame()` under `rndTour`: the first apple was placed at
`(21,25)`, right in front of the head, and the first tick has eaten it. -/
def tourStart : SnakeGame :=
  { constructed with
    gameRunning := true
    score := 1
    level := 2
    speed := 2
    gameSpeed := 135
    snake := [⟨21, 25⟩, ⟨20, 25⟩, ⟨19, 25⟩, ⟨18, 25⟩]
    apple := ⟨22, 25⟩
    currentSnakeColor := 1
    currentBackgroundColor := 1
    pendingTimers := 1
    randomCalls := 4 }

/-- A running game on the 40 × 50 grid, one callback armed, whose snake is `body`, whose
apple is `apple`, whose pending direction is the committed one, namely the step between
the first two segments, and which has drawn one candidate per segment beyond the third. -/
structure OnTour (s : SnakeGame) (body : List Cell) (apple : Cell) : Prop where
  width : s.gridWidth = 40
  height : s.gridHeight = 50
  running : s.gameRunning = true
  timers : s.pendingTimers = 1
  calls : s.randomCalls + 4 = 2 * body.length
  snake : s.snake = body
  apple : s.apple = apple
  pending : s.nextDirection = s.direction
  heading : ∃ h prev t, body = h :: prev :: t ∧ s.direction = ⟨h.x - prev.x, h.y - prev.y⟩

/-- The cells of the 40 × 50 grid, as a finite set. -/
def gridCells : Finset Cell :=
  ((Finset.Icc (0 : Int) 39) ×ˢ (Finset.Icc (0 : Int) 49)).image fun p => ⟨p.1, p.2⟩

end SnakeGame

namespace SnakeGame

theorem occupies_eq_true_iff (snake : List Cell) (c : Cell) :
    occupies snake c = true ↔ c ∈ snake := by
  unfold occupies
  rw [List.any_eq_true]
  constructor
  · rintro ⟨seg, hm, h⟩
    have hc : seg = c := by
      cases seg; cases c
      simpa using h
    exact hc ▸ hm
  · intro h
    exact ⟨c, h, by simp⟩

theorem occupies_eq_false_iff (snake : List Cell) (c : Cell) :
    occupies snake c = false ↔ c ∉ snake := by
  rw [← occupies_eq_true_iff]; simp

theorem not_outside_iff (s : SnakeGame) (c : Cell) : ¬ outside s c ↔ inGrid s c := by
  unfold outside inGrid; omega

/-- What a finished `generateApple()` did: it consumed an even number of draws, kept every
other field, and stored the last candidate, which is off the snake. -/
theorem generateApple_some {rnd : Nat → ℚ} {fuel : Nat} {s s1 : SnakeGame}
    (h : generateApple rnd fuel s = some s1) :
    ∃ k, s1 = { s with randomCalls := s.randomCalls + 2 * (k + 1),
                       apple := candidate rnd { s with randomCalls := s.randomCalls + 2 * k } } ∧
      s1.apple ∉ s.snake := by
  induction fuel generalizing s with
  | zero => simp [generateApple] at h
  | succ n ih =>
    rw [generateApple] at h
    by_cases hocc : occupies s.snake (candidate rnd s) = true
    · simp only [hocc, if_true] at h
      obtain ⟨k, hk, hfree⟩ := ih h
      refine ⟨k + 1, ?_, hfree⟩
      rw [hk]
      simp only [candidate, SnakeGame.mk.injEq, true_and, and_true]
      refine ⟨?_, by omega⟩
      have e : s.randomCalls + 2 + 2 * k = s.randomCalls + 2 * (k + 1) := by omega
      rw [e]
    · simp only [hocc] at h
      simp only [Bool.false_eq_true, if_false, Option.some.injEq] at h
      refine ⟨0, ?_, ?_⟩
      · rw [← h]; rfl
      · rw [← h]
        simpa [occupies_eq_true_iff] using hocc

/-- The three guards of `update()` on a non-empty snake, as one equation. -/
theorem update_cons (rnd : Nat → ℚ) (fuel : Nat) (s : SnakeGame) (first : Cell)
    (rest : List Cell) (hsnake : s.snake = first :: rest) :
    update rnd fuel s =
      if outside s (nextHead first s.nextDirection) ∨
          nextHead first s.nextDirection ∈ s.snake then
        some (gameOver { s with direction := s.nextDirection })
      else if nextHead first s.nextDirection = s.apple then
        (generateApple rnd fuel
          { s with direction := s.nextDirection
                   snake := nextHead first s.nextDirection :: s.snake
                   score := s.score + 1 }).map levelUp
      else
        some { s with direction := s.nextDirection
                      snake := (nextHead first s.nextDirection :: s.snake).dropLast } := by
  have hap : (nextHead first s.nextDirection).x = s.apple.x ∧
      (nextHead first s.nextDirection).y = s.apple.y ↔
      nextHead first s.nextDirection = s.apple := by
    constructor
    · intro h
      cases hh : nextHead first s.nextDirection
      cases ha : s.apple
      rw [hh, ha] at h
      simp only [Cell.mk.injEq]
      exact h
    · intro h
      rw [h]
      exact ⟨rfl, rfl⟩
  have hoc : ∀ c : Cell, (occupies (first :: rest) c = true) = (c ∈ first :: rest) :=
    fun c => propext (occupies_eq_true_iff _ c)
  rcases s with ⟨run, sc, lv, sp, gs, w, h, sn, d, nd, ap, c1, c2, ov, pt, rc⟩
  simp only at hsnake hap
  subst hsnake
  simp only [update, gameOver, hoc, hap]
  by_cases hout : outside ⟨run, sc, lv, sp, gs, w, h, first :: rest, d, nd, ap, c1, c2, ov, pt, rc⟩
      (nextHead first nd)
  · have hout1 : outside ⟨run, sc, lv, sp, gs, w, h, first :: rest, nd, nd, ap, c1, c2, ov, pt, rc⟩
        (nextHead first nd) := hout
    rw [if_pos hout1, if_pos (Or.inl hout)]
  · have hout1 : ¬ outside
        ⟨run, sc, lv, sp, gs, w, h, first :: rest, nd, nd, ap, c1, c2, ov, pt, rc⟩
        (nextHead first nd) := hout
    rw [if_neg hout1]
    by_cases hocc : nextHead first nd ∈ first :: rest
    · rw [if_pos hocc, if_pos (Or.inr hocc)]
    · rw [if_neg hocc, if_neg (not_or.mpr ⟨hout, hocc⟩)]

/-- If some attempt of the loop of `generateApple()` draws a cell off the snake, the loop
is over after at most that many iterations. -/
theorem generateApple_isSome (rnd : Nat → ℚ) (k : Nat) :
    ∀ (fuel : Nat) (s : SnakeGame), k < fuel →
      candidate rnd { s with randomCalls := s.randomCalls + 2 * k } ∉ s.snake →
      (generateApple rnd fuel s).isSome = true := by
  induction k with
  | zero =>
    intro fuel s hk hfree
    obtain ⟨n, rfl⟩ : ∃ n, fuel = n + 1 := ⟨fuel - 1, by omega⟩
    have h0 : occupies s.snake (candidate rnd s) = false :=
      (occupies_eq_false_iff _ _).mpr hfree
    rw [generateApple]
    simp only [h0, Bool.false_eq_true, if_false, Option.isSome_some]
  | succ k ih =>
    intro fuel s hk hfree
    obtain ⟨n, rfl⟩ : ∃ n, fuel = n + 1 := ⟨fuel - 1, by omega⟩
    rw [generateApple]
    by_cases hocc : occupies s.snake (candidate rnd s) = true
    · simp only [hocc, if_true]
      apply ih n _ (by omega)
      have e : s.randomCalls + 2 + 2 * k = s.randomCalls + 2 * (k + 1) := by omega
      simp only [e]
      exact hfree
    · simp only [hocc, Bool.false_eq_true, if_false, Option.isSome_some]

/-- C1, as amended (apple-eating tick).  Let the game run, let the snake be non-empty and
let the next head (first segment plus pending direction) be on the grid, off the pre-tick
snake and equal to the apple.  If the `k`-th candidate drawn inside `generateApple()` is
off the grown snake (next head followed by the pre-tick snake), then with any fuel above
`k` `update()` returns, and the state it leaves has the next head in front of the whole
pre-tick snake (one segment longer), score and level one higher, `gameRunning` still true,
and an apple that is on no segment of the new snake.  Every state `update()` returns at
all has that shape. -/
theorem update_eats_apple (rnd : Nat → ℚ) (s : SnakeGame) (first : Cell) (rest : List Cell)
    (hrun : s.gameRunning = true) (hsnake : s.snake = first :: rest)
    (hin : inGrid s (nextHead first s.nextDirection))
    (hfree : nextHead first s.nextDirection ∉ s.snake)
    (happle : nextHead first s.nextDirection = s.apple) :
    (∀ k fuel, k < fuel →
      candidate rnd { s with randomCalls := s.randomCalls + 2 * k } ∉
        nextHead first s.nextDirection :: s.snake →
      ∃ s1, update rnd fuel s = some s1 ∧
        s1.snake = nextHead first s.nextDirection :: s.snake ∧
        s1.snake.length = s.snake.length + 1 ∧
        s1.score = s.score + 1 ∧ s1.level = s.level + 1 ∧ s1.gameRunning = true ∧
        s1.apple ∉ s1.snake) ∧
    (∀ fuel s1, update rnd fuel s = some s1 →
      s1.snake = nextHead first s.nextDirection :: s.snake ∧
      s1.snake.length = s.snake.length + 1 ∧
      s1.score = s.score + 1 ∧ s1.level = s.level + 1 ∧ s1.gameRunning = true ∧
      s1.apple ∉ s1.snake) := by
  have hupd : ∀ fuel, update rnd fuel s =
      (generateApple rnd fuel
          { s with direction := s.nextDirection
                   snake := nextHead first s.nextDirection :: s.snake
                   score := s.score + 1 }).map levelUp := by
    intro fuel
    rw [update_cons rnd fuel s first rest hsnake,
      if_neg (not_or.mpr ⟨(not_outside_iff _ _).mpr hin, hfree⟩), if_pos happle]
  have hshape : ∀ fuel s1, update rnd fuel s = some s1 →
      s1.snake = nextHead first s.nextDirection :: s.snake ∧
      s1.snake.length = s.snake.length + 1 ∧
      s1.score = s.score + 1 ∧ s1.level = s.level + 1 ∧ s1.gameRunning = true ∧
      s1.apple ∉ s1.snake := by
    intro fuel s1 h
    rw [hupd fuel, Option.map_eq_some'] at h
    obtain ⟨s2, hgen, rfl⟩ := h
    obtain ⟨k, hk, hoff⟩ := generateApple_some hgen
    have hsn : s2.snake = nextHead first s.nextDirection :: s.snake := by rw [hk]
    have hsc : s2.score = s.score + 1 := by rw [hk]
    have hlv : s2.level = s.level := by rw [hk]
    have hr : s2.gameRunning = s.gameRunning := by rw [hk]
    refine ⟨hsn, ?_, hsc, ?_, ?_, ?_⟩
    · show s2.snake.length = _
      rw [hsn, List.length_cons]
    · show s2.level + 1 = _
      rw [hlv]
    · show s2.gameRunning = true
      rw [hr, hrun]
    · show s2.apple ∉ s2.snake
      rw [hsn]
      exact hoff
  refine ⟨?_, hshape⟩
  intro k fuel hk hoff
  have hsome : (update rnd fuel s).isSome = true := by
    rw [hupd fuel, Option.isSome_map']
    exact generateApple_isSome rnd k fuel _ hk hoff
  obtain ⟨s1, hs1⟩ := Option.isSome_iff_exists.mp hsome
  exact ⟨s1, hs1, hshape fuel s1 hs1⟩

/-- C1 as amended, on the snake `[(5,5),(4,5),(3,5)]` heading `(1,0)` with the apple at
`(6,5)` and every draw `0`: the first candidate `(0,0)` is free, the tick returns, the
snake becomes `[(6,5),(5,5),(4,5),(3,5)]` and the score 1. -/
theorem update_eats_apple_witness :
    ∃ s1, update rndZero 1 (scenario [⟨5, 5⟩, ⟨4, 5⟩, ⟨3, 5⟩] ⟨1, 0⟩ ⟨6, 5⟩) = some s1 ∧
      s1.snake = [⟨6, 5⟩, ⟨5, 5⟩, ⟨4, 5⟩, ⟨3, 5⟩] ∧ s1.snake.length = 3 + 1 ∧
      s1.score = 0 + 1 ∧ s1.level = 1 + 1 ∧ s1.gameRunning = true ∧ s1.apple ∉ s1.snake :=
  (update_eats_apple rndZero (scenario [⟨5, 5⟩, ⟨4, 5⟩, ⟨3, 5⟩] ⟨1, 0⟩ ⟨6, 5⟩) ⟨5, 5⟩
    [⟨4, 5⟩, ⟨3, 5⟩] rfl rfl (by decide) (by decide) (by decide)).1 0 1 (by decide)
    (by decide!)

/-- C2 (plain-move tick).  Let the snake be non-empty and let the next head be on the grid,
off the pre-tick snake and different from the apple.  Then `update()` returns (whatever
the fuel), the snake is the next head followed by the pre-tick snake without its last
segment, its length is unchanged, and score, level, tick interval, apple and
`gameRunning` are unchanged. -/
theorem update_plain_move (rnd : Nat → ℚ) (fuel : Nat) (s : SnakeGame) (first : Cell)
    (rest : List Cell) (hrun : s.gameRunning = true) (hsnake : s.snake = first :: rest)
    (hin : inGrid s (nextHead first s.nextDirection))
    (hfree : nextHead first s.nextDirection ∉ s.snake)
    (hnot : nextHead first s.nextDirection ≠ s.apple) :
    ∃ s1, update rnd fuel s = some s1 ∧
      s1.snake = nextHead first s.nextDirection :: s.snake.dropLast ∧
      s1.snake.length = s.snake.length ∧
      s1.score = s.score ∧ s1.level = s.level ∧ s1.gameSpeed = s.gameSpeed ∧
      s1.apple = s.apple ∧ s1.gameRunning = true := by
  refine ⟨{ s with
    direction := s.nextDirection
    snake := (nextHead first s.nextDirection :: s.snake).dropLast },
    ?_, ?_, ?_, rfl, rfl, rfl, rfl, hrun⟩
  · rw [update_cons rnd fuel s first rest hsnake,
      if_neg (not_or.mpr ⟨(not_outside_iff _ _).mpr hin, hfree⟩), if_neg hnot]
  · show (nextHead first s.nextDirection :: s.snake).dropLast = _
    rw [hsnake]; rfl
  · show (nextHead first s.nextDirection :: s.snake).dropLast.length = _
    rw [hsnake]; simp

/-- C2, on the snake `[(5,5),(4,5),(3,5)]` heading `(1,0)` with the apple elsewhere, at
`(0,0)`: the snake becomes `[(6,5),(5,5),(4,5)]`. -/
theorem update_plain_move_witness :
    ∃ s1, update rndZero 0 (scenario [⟨5, 5⟩, ⟨4, 5⟩, ⟨3, 5⟩] ⟨1, 0⟩ ⟨0, 0⟩) = some s1 ∧
      s1.snake = [⟨6, 5⟩, ⟨5, 5⟩, ⟨4, 5⟩] ∧ s1.snake.length = 3 ∧
      s1.score = 0 ∧ s1.level = 1 ∧ s1.gameSpeed = 150 ∧
      s1.apple = ⟨0, 0⟩ ∧ s1.gameRunning = true :=
  update_plain_move rndZero 0 (scenario [⟨5, 5⟩, ⟨4, 5⟩, ⟨3, 5⟩] ⟨1, 0⟩ ⟨0, 0⟩) ⟨5, 5⟩
    [⟨4, 5⟩, ⟨3, 5⟩] rfl rfl (by decide) (by decide) (by decide)

/-- C3 (collision is an atomic failure).  Let the snake be non-empty and let the next head
be outside the grid or on any segment of the pre-tick snake, its last one included.  Then
`update()` returns (whatever the fuel) with `gameRunning` false and with snake, score,
level, tick interval and apple exactly as before the tick. -/
theorem update_collision_atomic (rnd : Nat → ℚ) (fuel : Nat) (s : SnakeGame) (first : Cell)
    (rest : List Cell) (hrun : s.gameRunning = true) (hsnake : s.snake = first :: rest)
    (hcol : outside s (nextHead first s.nextDirection) ∨
      nextHead first s.nextDirection ∈ s.snake) :
    ∃ s1, update rnd fuel s = some s1 ∧ s1.gameRunning = false ∧ s1.snake = s.snake ∧
      s1.score = s.score ∧ s1.level = s.level ∧ s1.gameSpeed = s.gameSpeed ∧
      s1.apple = s.apple := by
  have _ := hrun
  refine ⟨gameOver { s with direction := s.nextDirection }, ?_, rfl, rfl, rfl, rfl, rfl, rfl⟩
  rw [update_cons rnd fuel s first rest hsnake, if_pos hcol]

/-- C3, on a head at `(0,5)` heading `(-1,0)` towards `(-1,5)`: the game ends and the snake
stays `[(0,5),(1,5),(2,5)]`. -/
theorem update_collision_atomic_witness :
    ∃ s1, update rndZero 0 (scenario [⟨0, 5⟩, ⟨1, 5⟩, ⟨2, 5⟩] ⟨-1, 0⟩ ⟨6, 5⟩) = some s1 ∧
      s1.gameRunning = false ∧ s1.snake = [⟨0, 5⟩, ⟨1, 5⟩, ⟨2, 5⟩] ∧
      s1.score = 0 ∧ s1.level = 1 ∧ s1.gameSpeed = 150 ∧ s1.apple = ⟨6, 5⟩ :=
  update_collision_atomic rndZero 0 (scenario [⟨0, 5⟩, ⟨1, 5⟩, ⟨2, 5⟩] ⟨-1, 0⟩ ⟨6, 5⟩) ⟨0, 5⟩
    [⟨1, 5⟩, ⟨2, 5⟩] rfl rfl (Or.inl (by decide))

/-- Line 184 in the model: the double product with `0.9`, clamped at 50. -/
theorem levelUp_gameSpeed (s : SnakeGame) :
    (levelUp s).gameSpeed = max 50 (toDouble (s.gameSpeed * toDouble (9 / 10))) := rfl

/-- One more apple: one more application of line 184. -/
theorem intervalAfter_succ (n : Nat) :
    intervalAfter (n + 1) = max 50 (toDouble (intervalAfter n * toDouble (9 / 10))) := by
  unfold intervalAfter
  rw [Function.iterate_succ_apply']

/-- `n` applications of `levelUp()` to a state whose tick interval is 150. -/
theorem iterate_levelUp_gameSpeed (s : SnakeGame) (hs : s.gameSpeed = 150) (n : Nat) :
    (levelUp^[n] s).gameSpeed = intervalAfter n := by
  induction n with
  | zero => exact hs
  | succ n ih =>
    rw [Function.iterate_succ_apply', levelUp_gameSpeed, ih, intervalAfter_succ]

set_option maxRecDepth 1000000 in
/-- The tick intervals after 0 to 11 apples, as the doubles they are. -/
theorem intervalAfter_table :
    (List.range 12).map intervalAfter =
      [150, 135, 243 / 2, 7694822175827559 / 70368744177664,
        6925339958244803 / 70368744177664, 6232805962420323 / 70368744177664,
        5609525366178291 / 70368744177664, 2524286414780231 / 35184372088832,
        35497777707847 / 549755813888, 8178687983887949 / 140737488355328,
        3680409592749577 / 70368744177664, 50] := by decide!

set_option maxRecDepth 1000000 in
/-- At the floor the interval stays: `50 * 0.9` is below 50. -/
theorem interval_floor_fixed : max (50 : ℚ) (toDouble (50 * toDouble (9 / 10))) = 50 := by
  decide!

/-- From the eleventh apple on the interval is 50. -/
theorem intervalAfter_floor (n : Nat) (hn : 11 ≤ n) : intervalAfter n = 50 := by
  induction n with
  | zero => omega
  | succ n ih =>
    rcases Nat.lt_or_ge n 11 with h | h
    · have h10 : n = 10 := by omega
      subst h10
      have h := congrArg (fun l => l.getD 11 0) intervalAfter_table
      simpa using h
    · rw [intervalAfter_succ, ih h]
      exact interval_floor_fixed

/-- The interval is never below 50. -/
theorem intervalAfter_ge (n : Nat) : 50 ≤ intervalAfter n := by
  cases n with
  | zero => show (50 : ℚ) ≤ 150; norm_num
  | succ n => rw [intervalAfter_succ]; exact le_max_left _ _

/-- From the eleventh apple on, the decayed interval `150 × (9/10)^n` is under the floor. -/
theorem decay_le_floor (n : Nat) (hn : 11 ≤ n) : (150 : ℚ) * (9 / 10) ^ n ≤ 50 := by
  have h1 : ((9 : ℚ) / 10) ^ n ≤ (9 / 10) ^ 11 :=
    pow_le_pow_of_le_one (by norm_num) (by norm_num) hn
  have h2 : (150 : ℚ) * (9 / 10) ^ 11 ≤ 50 := by norm_num
  linarith

/-- A draw in `[0, 1)` scaled by a positive size floors into `[0, size)`. -/
theorem mathFloor_scaled (r : ℚ) (n : Int) (h0 : 0 ≤ r) (h1 : r < 1) (hn : 0 < n) :
    0 ≤ mathFloor (r * n) ∧ mathFloor (r * n) < n := by
  have hn' : (0 : ℚ) < (n : ℚ) := by exact_mod_cast hn
  unfold mathFloor
  constructor
  · exact Int.floor_nonneg.mpr (mul_nonneg h0 hn'.le)
  · rw [Int.floor_lt]
    calc r * (n : ℚ) < 1 * (n : ℚ) := mul_lt_mul_of_pos_right h1 hn'
      _ = n := one_mul _

/-- Every candidate apple lies on the grid when the random source stays in `[0, 1)`. -/
theorem candidate_inGrid (rnd : Nat → ℚ) (hr : UnitRange rnd) (s s1 : SnakeGame)
    (hw : s1.gridWidth = s.gridWidth) (hh : s1.gridHeight = s.gridHeight)
    (hwp : 0 < s.gridWidth) (hhp : 0 < s.gridHeight) : inGrid s (candidate rnd s1) := by
  have hx := mathFloor_scaled (rnd s1.randomCalls) s.gridWidth (hr _).1 (hr _).2 hwp
  have hy := mathFloor_scaled (rnd (s1.randomCalls + 1)) s.gridHeight (hr _).1 (hr _).2 hhp
  unfold inGrid candidate
  simp only [hw, hh]
  exact ⟨hx.1, hx.2, hy.1, hy.2⟩

/-- A unit direction is never its own opposite. -/
theorem ne_opposite_self (d : Cell) (hd : d ∈ directions) : d ≠ opposite d := by
  simp only [directions, List.mem_cons, List.mem_singleton, List.not_mem_nil, or_false] at hd
  rcases hd with rfl | rfl | rfl | rfl <;> decide

/-- The state `startGame()` hands to `gameLoop()` is sound. -/
theorem sound_reset (rnd : Nat → ℚ) (fuel : Nat) (s s1 : SnakeGame)
    (hw : s.gridWidth = 40) (hh : s.gridHeight = 50)
    (h : generateApple rnd fuel (resetFields s) = some s1) : Sound rnd s1 := by
  obtain ⟨k, hk, hoff⟩ := generateApple_some h
  have hsn : s1.snake = [⟨20, 25⟩, ⟨19, 25⟩, ⟨18, 25⟩] := by
    rw [hk]; simp [resetFields, hw, hh]
  have hgw : s1.gridWidth = 40 := by rw [hk]; exact hw
  have hgh : s1.gridHeight = 50 := by rw [hk]; exact hh
  have hd : s1.direction = ⟨1, 0⟩ := by rw [hk]; rfl
  have hnd : s1.nextDirection = ⟨1, 0⟩ := by rw [hk]; rfl
  have hsc : s1.score = 0 := by rw [hk]; rfl
  have hlv : s1.level = 1 := by rw [hk]; rfl
  have hgs : s1.gameSpeed = 150 := by rw [hk]; rfl
  refine ⟨hgw, hgh, ?_, ?_, ?_, ?_, ?_, ?_, ?_, ?_, ?_, ?_⟩
  · rw [hsn]; simp
  · rw [hsn]; decide
  · intro c hc
    rw [hsn] at hc
    simp only [List.mem_cons, List.mem_singleton, List.not_mem_nil, or_false] at hc
    unfold inGrid
    rw [hgw, hgh]
    rcases hc with rfl | rfl | rfl <;> decide
  · have hsn0 : (resetFields s).snake = s1.snake := by rw [hk]
    rw [← hsn0]; exact hoff
  · intro hr
    have hc := candidate_inGrid rnd hr s1
      { resetFields s with randomCalls := (resetFields s).randomCalls + 2 * k }
      (by rw [hgw]; exact hw) (by rw [hgh]; exact hh) (by rw [hgw]; decide)
      (by rw [hgh]; decide)
    have ha : s1.apple = candidate rnd
        { resetFields s with randomCalls := (resetFields s).randomCalls + 2 * k } := by
      rw [hk]
    rw [ha]; exact hc
  · rw [hd]; decide
  · rw [hnd]; decide
  · rw [hnd, hd]; decide
  · rw [hlv, hsc]
  · rw [hgs, hsc]; rfl

/-- `update()` keeps a sound state sound, whichever branch it takes. -/
theorem sound_update (rnd : Nat → ℚ) (fuel : Nat) (s s1 : SnakeGame) (hs : Sound rnd s)
    (h : update rnd fuel s = some s1) : Sound rnd s1 := by
  obtain ⟨first, rest, hsnake⟩ : ∃ first rest, s.snake = first :: rest := by
    cases hsn : s.snake with
    | nil => exact absurd hsn hs.nonempty
    | cons a l => exact ⟨a, l, rfl⟩
  rw [update_cons rnd fuel s first rest hsnake] at h
  have hnr : s.nextDirection ≠ opposite s.nextDirection := ne_opposite_self _ hs.next
  by_cases hcol : outside s (nextHead first s.nextDirection) ∨
      nextHead first s.nextDirection ∈ s.snake
  · rw [if_pos hcol, Option.some.injEq] at h
    subst h
    exact ⟨hs.width, hs.height, hs.nonempty, hs.nodup, hs.onGrid, hs.appleFree,
      hs.appleOnGrid, hs.next, hs.next, hnr, hs.levelScore, hs.speedForm⟩
  · rw [if_neg hcol] at h
    obtain ⟨hout, hfree⟩ := not_or.mp hcol
    have hin : inGrid s (nextHead first s.nextDirection) := (not_outside_iff _ _).mp hout
    have hnd : (nextHead first s.nextDirection :: s.snake).Nodup :=
      List.nodup_cons.mpr ⟨hfree, hs.nodup⟩
    have hon : ∀ c ∈ nextHead first s.nextDirection :: s.snake, inGrid s c := by
      intro c hc
      rcases List.mem_cons.mp hc with rfl | hc
      · exact hin
      · exact hs.onGrid c hc
    by_cases happle : nextHead first s.nextDirection = s.apple
    · rw [if_pos happle, Option.map_eq_some'] at h
      obtain ⟨s2, hgen, rfl⟩ := h
      obtain ⟨k, hk, hoff⟩ := generateApple_some hgen
      have hsn : s2.snake = nextHead first s.nextDirection :: s.snake := by rw [hk]
      have hgw : s2.gridWidth = s.gridWidth := by rw [hk]
      have hgh : s2.gridHeight = s.gridHeight := by rw [hk]
      have hd : s2.direction = s.nextDirection := by rw [hk]
      have hn : s2.nextDirection = s.nextDirection := by rw [hk]
      have hsc : s2.score = s.score + 1 := by rw [hk]
      have hlv : s2.level = s.level := by rw [hk]
      have hgs : s2.gameSpeed = s.gameSpeed := by rw [hk]
      have hgrid : ∀ c, inGrid (levelUp s2) c ↔ inGrid s c := by
        intro c
        show (0 ≤ c.x ∧ c.x < s2.gridWidth ∧ 0 ≤ c.y ∧ c.y < s2.gridHeight) ↔ _
        rw [hgw, hgh]; rfl
      refine ⟨?_, ?_, ?_, ?_, ?_, ?_, ?_, ?_, ?_, ?_, ?_, ?_⟩
      · show s2.gridWidth = 40
        rw [hgw, hs.width]
      · show s2.gridHeight = 50
        rw [hgh, hs.height]
      · show s2.snake ≠ []
        rw [hsn]; exact List.cons_ne_nil _ _
      · show s2.snake.Nodup
        rw [hsn]; exact hnd
      · intro c hc
        have hc' : c ∈ s2.snake := hc
        rw [hsn] at hc'
        exact (hgrid c).mpr (hon c hc')
      · show s2.apple ∉ s2.snake
        rw [hsn]; exact hoff
      · intro hr
        refine (hgrid _).mpr ?_
        have ha : s2.apple = candidate rnd
            { s with direction := s.nextDirection
                     snake := nextHead first s.nextDirection :: s.snake
                     score := s.score + 1
                     randomCalls := s.randomCalls + 2 * k } := by rw [hk]
        show inGrid s s2.apple
        rw [ha]
        exact candidate_inGrid rnd hr s _ rfl rfl (by rw [hs.width]; decide)
          (by rw [hs.height]; decide)
      · show s2.direction ∈ directions
        rw [hd]; exact hs.next
      · show s2.nextDirection ∈ directions
        rw [hn]; exact hs.next
      · show s2.nextDirection ≠ opposite s2.direction
        rw [hn, hd]; exact hnr
      · show s2.level + 1 = s2.score + 1
        rw [hlv, hsc, hs.levelScore]
      · show max 50 (toDouble (s2.gameSpeed * toDouble (9 / 10))) = intervalAfter s2.score
        rw [hgs, hsc, hs.speedForm, intervalAfter_succ]
    · rw [if_neg happle, Option.some.injEq] at h
      subst h
      have hsub : (nextHead first s.nextDirection :: s.snake).dropLast.Sublist
          (nextHead first s.nextDirection :: s.snake) := List.dropLast_sublist _
      refine ⟨hs.width, hs.height, ?_, hnd.sublist hsub, ?_, ?_, hs.appleOnGrid, hs.next,
        hs.next, hnr, hs.levelScore, hs.speedForm⟩
      · show (nextHead first s.nextDirection :: s.snake).dropLast ≠ []
        rw [hsnake]; simp
      · intro c hc
        exact hon c (hsub.subset hc)
      · intro hc
        rcases List.mem_cons.mp (hsub.subset hc) with heq | hmem
        · exact happle heq.symm
        · exact hs.appleFree hmem

/-- Soundness does not look at the timer queue. -/
theorem sound_timers (rnd : Nat → ℚ) (s : SnakeGame) (n : Nat) (hs : Sound rnd s) :
    Sound rnd { s with pendingTimers := n } :=
  ⟨hs.width, hs.height, hs.nonempty, hs.nodup, hs.onGrid, hs.appleFree, hs.appleOnGrid,
    hs.dir, hs.next, hs.noReverse, hs.levelScore, hs.speedForm⟩

/-- `gameLoop()` keeps a sound state sound. -/
theorem sound_gameLoop (rnd : Nat → ℚ) (fuel : Nat) (s s1 : SnakeGame) (hs : Sound rnd s)
    (h : gameLoop rnd fuel s = some s1) : Sound rnd s1 := by
  unfold gameLoop at h
  by_cases hrun : s.gameRunning = false
  · rw [if_pos hrun, Option.some.injEq] at h
    exact h ▸ hs
  · rw [if_neg hrun, Option.map_eq_some'] at h
    obtain ⟨s2, hupd, rfl⟩ := h
    exact sound_timers rnd s2 _ (sound_update rnd fuel s s2 hs hupd)

/-- `startGame()` on the 40 × 50 grid returns a sound state, whatever the state before. -/
theorem sound_startGame (rnd : Nat → ℚ) (fuel : Nat) (s s1 : SnakeGame)
    (hw : s.gridWidth = 40) (hh : s.gridHeight = 50)
    (h : startGame rnd fuel s = some s1) : Sound rnd s1 := by
  unfold startGame at h
  rw [Option.bind_eq_some] at h
  obtain ⟨s2, hgen, hloop⟩ := h
  exact sound_gameLoop rnd fuel s2 s1 (sound_reset rnd fuel s s2 hw hh hgen) hloop

/-- The `keydown` listener keeps a sound state sound: it only records turns by a right
angle. -/
theorem sound_keydown (rnd : Nat → ℚ) (k : Key) (s : SnakeGame) (hs : Sound rnd s) :
    Sound rnd (keydown k s) := by
  have hd := hs.dir
  simp only [directions, List.mem_cons, List.mem_singleton, List.not_mem_nil, or_false] at hd
  have key : ∀ d : Cell, d ∈ directions → d ≠ opposite s.direction →
      Sound rnd { s with nextDirection := d } := fun d h1 h2 =>
    ⟨hs.width, hs.height, hs.nonempty, hs.nodup, hs.onGrid, hs.appleFree, hs.appleOnGrid,
      hs.dir, h1, h2, hs.levelScore, hs.speedForm⟩
  unfold keydown
  by_cases hrun : s.gameRunning = false
  · rw [if_pos hrun]; exact hs
  · rw [if_neg hrun]
    cases k with
    | ArrowUp =>
      show Sound rnd (if s.direction.y = 0 then _ else s)
      split
      · rename_i hy
        refine key _ (by decide) ?_
        rcases hd with h | h | h | h <;> rw [h] at hy ⊢ <;> revert hy <;> decide
      · exact hs
    | ArrowDown =>
      show Sound rnd (if s.direction.y = 0 then _ else s)
      split
      · rename_i hy
        refine key _ (by decide) ?_
        rcases hd with h | h | h | h <;> rw [h] at hy ⊢ <;> revert hy <;> decide
      · exact hs
    | ArrowLeft =>
      show Sound rnd (if s.direction.x = 0 then _ else s)
      split
      · rename_i hx
        refine key _ (by decide) ?_
        rcases hd with h | h | h | h <;> rw [h] at hx ⊢ <;> revert hx <;> decide
      · exact hs
    | ArrowRight =>
      show Sound rnd (if s.direction.x = 0 then _ else s)
      split
      · rename_i hx
        refine key _ (by decide) ?_
        rcases hd with h | h | h | h <;> rw [h] at hx ⊢ <;> revert hx <;> decide
      · exact hs
    | other => exact hs

/-- Every handler keeps a sound state sound. -/
theorem sound_handle (rnd : Nat → ℚ) (fuel : Nat) (e : Event) (s s1 : SnakeGame)
    (hs : Sound rnd s) (h : handle rnd fuel s e = some s1) : Sound rnd s1 := by
  cases e with
  | timer =>
    simp only [handle, timerFires] at h
    by_cases hp : s.pendingTimers = 0
    · rw [if_pos hp] at h; cases h
    · rw [if_neg hp] at h
      exact sound_gameLoop rnd fuel _ s1 (sound_timers rnd s _ hs) h
  | key k =>
    simp only [handle, Option.some.injEq] at h
    exact h ▸ sound_keydown rnd k s hs
  | restart =>
    simp only [handle, restartClick] at h
    exact sound_startGame rnd fuel (hideGameOver s) s1 hs.width hs.height h

/-- Every reachable state is sound. -/
theorem reachable_sound (rnd : Nat → ℚ) (s : SnakeGame) (h : Reachable rnd s) :
    Sound rnd s := by
  induction h with
  | construct fuel s hinit => exact sound_startGame rnd fuel constructed s rfl rfl hinit
  | step fuel e s s1 _ hstep ih => exact sound_handle rnd fuel e s s1 ih hstep

/-- The intervals after 0, 1 and 2 apples are exactly `150 × (9/10)^n`; the intervals after
3 to 10 apples are not, but are within `2^-45` of it. -/
theorem interval_vs_closed_form (n : Nat) (hn : n < 11) :
    (n ≤ 2 → intervalAfter n = max 50 (150 * (9 / 10) ^ n)) ∧
    (3 ≤ n → intervalAfter n ≠ max 50 (150 * (9 / 10) ^ n)) ∧
    |intervalAfter n - max 50 (150 * (9 / 10) ^ n)| ≤ 1 / 2 ^ 45 := by
  have key : ∀ i, i < 12 → intervalAfter i = ((List.range 12).map intervalAfter).getD i 0 := by
    intro i hi
    rw [List.getD_eq_getElem _ _ (by simpa using hi)]
    simp
  have hval := key n (by omega)
  rw [intervalAfter_table] at hval
  interval_cases n <;> simp only [List.getD_cons_succ, List.getD_cons_zero] at hval <;>
    rw [hval] <;> refine ⟨?_, ?_, ?_⟩ <;> norm_num [abs_le]

/-- C5, counterexample.  After three apples from the 150 of `startGame()` the interval is
the double `109.35000000000001`, that is `7694822175827559 / 2^46`, and not
`max(50, 150 × 0.9^3) = 2187/20`. -/
theorem gameSpeed_third_apple :
    (levelUp^[3] (resetFields constructed)).gameSpeed =
      7694822175827559 / 70368744177664 ∧
    (levelUp^[3] (resetFields constructed)).gameSpeed ≠ max 50 (150 * (9 / 10) ^ 3) := by
  have h := iterate_levelUp_gameSpeed (resetFields constructed) rfl 3
  have h3 := congrArg (fun l => l.getD 3 0) intervalAfter_table
  simp only [List.range, List.range.loop, List.map, List.getD_cons_succ,
    List.getD_cons_zero] at h3
  rw [h, h3]
  refine ⟨rfl, ?_⟩
  norm_num

/-- C5, as amended.  `startGame()` sets the tick interval to 150 (the state
`resetFields s`).  After `n` applications of `levelUp()` to it the interval is the `n`-th
iterate of `g ↦ max(50, g × 0.9)` in double arithmetic (`intervalAfter n`).  It is never
below 50 and is exactly 50 for every `n ≥ 11`; it equals `max(50, 150 × (9/10)^n)` exactly
for `n ≤ 2` and for `n ≥ 11`, differs from it for `3 ≤ n ≤ 10`, and is always within
`2^-45` of it.  In a real run `levelUp()` is applied once per apple eaten and `score`
counts the apples eaten since `startGame()`: in every reachable state the interval is
`intervalAfter score`. -/
theorem gameSpeed_after_apples (s : SnakeGame) (n : Nat) :
    (levelUp^[n] (resetFields s)).gameSpeed = intervalAfter n ∧
    50 ≤ (levelUp^[n] (resetFields s)).gameSpeed ∧
    (11 ≤ n → (levelUp^[n] (resetFields s)).gameSpeed = 50) ∧
    (n ≤ 2 ∨ 11 ≤ n →
      (levelUp^[n] (resetFields s)).gameSpeed = max 50 (150 * (9 / 10) ^ n)) ∧
    (3 ≤ n ∧ n ≤ 10 →
      (levelUp^[n] (resetFields s)).gameSpeed ≠ max 50 (150 * (9 / 10) ^ n)) ∧
    |(levelUp^[n] (resetFields s)).gameSpeed - max 50 (150 * (9 / 10) ^ n)| ≤ 1 / 2 ^ 45 ∧
    (∀ (rnd : Nat → ℚ) (s1 : SnakeGame), Reachable rnd s1 →
      s1.gameSpeed = intervalAfter s1.score) := by
  have h := iterate_levelUp_gameSpeed (resetFields s) rfl n
  rw [h]
  have hbig : 11 ≤ n → intervalAfter n = max 50 (150 * (9 / 10) ^ n) := by
    intro hn
    rw [intervalAfter_floor n hn, max_eq_left (decay_le_floor n hn)]
  refine ⟨rfl, intervalAfter_ge n, intervalAfter_floor n, ?_, ?_, ?_, ?_⟩
  · rintro (h2 | h11)
    · exact (interval_vs_closed_form n (by omega)).1 h2
    · exact hbig h11
  · rintro ⟨h3, h10⟩
    exact (interval_vs_closed_form n (by omega)).2.1 h3
  · rcases Nat.lt_or_ge n 11 with hlt | hge
    · exact (interval_vs_closed_form n hlt).2.2
    · rw [hbig hge, sub_self, abs_zero]
      positivity
  · intro rnd s1 h1
    exact (reachable_sound rnd s1 h1).speedForm

/-- C5 as amended, at `n = 12` from the constructor's object: the interval is 50. -/
theorem gameSpeed_after_apples_witness :
    (levelUp^[12] (resetFields constructed)).gameSpeed = 50 :=
  (gameSpeed_after_apples constructed 12).2.2.1 (by decide)

/-- A successful `run` ends in a reachable state. -/
theorem reachable_run (rnd : Nat → ℚ) (fuel : Nat) (es : List Event) :
    ∀ s, run rnd fuel es = some s → Reachable rnd s := by
  induction es with
  | nil => intro s h; exact Reachable.construct fuel s h
  | cons e es ih =>
    intro s h
    rw [run, Option.bind_eq_some] at h
    obtain ⟨s0, h0, h1⟩ := h
    exact Reachable.step fuel e s0 s (ih s0 h0) h1

/-- The constant-zero random source stays in `[0, 1)`. -/
theorem unitRange_rndZero : UnitRange rndZero := fun _ => ⟨le_refl _, zero_lt_one⟩

/-- `started` is the page right after construction under `rndZero`. -/
theorem reachable_started : Reachable rndZero started :=
  reachable_run rndZero 1 [] started (by decide!)

/-- `crashed` is reached from construction by 19 timer firings under `rndZero`. -/
theorem reachable_crashed : Reachable rndZero crashed :=
  reachable_run rndZero 1 (List.replicate 19 Event.timer) crashed (by decide!)

/-- C7 (self-collision invariant).  In every state reachable from construction by timer
ticks, key presses and restarts, collided or not, the snake has no repeated cell. -/
theorem snake_nodup (rnd : Nat → ℚ) (s : SnakeGame) (h : Reachable rnd s) :
    s.snake.Nodup :=
  (reachable_sound rnd s h).nodup

/-- C7 on the state reached by driving the snake into the right wall. -/
theorem snake_nodup_witness : crashed.snake.Nodup :=
  snake_nodup rndZero crashed reachable_crashed

/-- C8 (in-bounds invariant).  With a random source in `[0, 1)`, in every reachable state
the grid is still 40 × 50 and every snake segment and the apple satisfy `0 ≤ x < 40` and
`0 ≤ y < 50`. -/
theorem cells_in_bounds (rnd : Nat → ℚ) (hr : UnitRange rnd) (s : SnakeGame)
    (h : Reachable rnd s) :
    s.gridWidth = 40 ∧ s.gridHeight = 50 ∧
    (∀ c ∈ s.snake, 0 ≤ c.x ∧ c.x < 40 ∧ 0 ≤ c.y ∧ c.y < 50) ∧
    (0 ≤ s.apple.x ∧ s.apple.x < 40 ∧ 0 ≤ s.apple.y ∧ s.apple.y < 50) := by
  have hs := reachable_sound rnd s h
  refine ⟨hs.width, hs.height, ?_, ?_⟩
  · intro c hc
    have := hs.onGrid c hc
    unfold inGrid at this
    rwa [hs.width, hs.height] at this
  · have := hs.appleOnGrid hr
    unfold inGrid at this
    rwa [hs.width, hs.height] at this

/-- C8 on the page right after construction, every draw being `0`. -/
theorem cells_in_bounds_witness :
    started.gridWidth = 40 ∧ started.gridHeight = 50 ∧
    (∀ c ∈ started.snake, 0 ≤ c.x ∧ c.x < 40 ∧ 0 ≤ c.y ∧ c.y < 50) ∧
    (0 ≤ started.apple.x ∧ started.apple.x < 40 ∧ 0 ≤ started.apple.y ∧ started.apple.y < 50) :=
  cells_in_bounds rndZero unitRange_rndZero started reachable_started

/-- The `keydown` listener never writes the committed direction. -/
theorem keydown_direction (k : Key) (s : SnakeGame) : (keydown k s).direction = s.direction := by
  unfold keydown
  cases k <;> simp only <;> split_ifs <;> rfl

/-- A run of key presses leads from a reachable state to a reachable state and leaves the
committed direction alone. -/
theorem keydowns_spec (rnd : Nat → ℚ) (ks : List Key) :
    ∀ s, Reachable rnd s →
      Reachable rnd (keydowns ks s) ∧ (keydowns ks s).direction = s.direction := by
  induction ks with
  | nil => intro s h; exact ⟨h, rfl⟩
  | cons k ks ih =>
    intro s h
    have h1 : Reachable rnd (keydown k s) := Reachable.step 0 (Event.key k) s _ h rfl
    obtain ⟨h2, h3⟩ := ih (keydown k s) h1
    exact ⟨h2, h3.trans (keydown_direction k s)⟩

/-- Whatever branch `update()` takes, the direction it leaves is the one that was pending
(line 142). -/
theorem update_direction (rnd : Nat → ℚ) (fuel : Nat) (s s1 : SnakeGame)
    (h : update rnd fuel s = some s1) : s1.direction = s.nextDirection := by
  cases hsn : s.snake with
  | nil =>
    unfold update at h
    simp only [hsn, Option.some.injEq] at h
    rw [← h]
  | cons first rest =>
    rw [update_cons rnd fuel s first rest hsn] at h
    split_ifs at h with h1 h2
    · rw [Option.some.injEq] at h; rw [← h]; rfl
    · rw [Option.map_eq_some'] at h
      obtain ⟨s2, hgen, rfl⟩ := h
      obtain ⟨k, hk, -⟩ := generateApple_some hgen
      show s2.direction = _
      rw [hk]
    · rw [Option.some.injEq] at h; rw [← h]

/-- C4 (anti-reversal).  Let `s` be a reachable state whose committed direction is `d`,
whatever its pending direction.  The key that requests the opposite of `d` leaves `s`
unchanged, field for field.  And after any sequence `ks` of key presses the pending
direction is not the opposite of `d`, so every state the next `update()` returns has a
committed direction different from it. -/
theorem no_reversal (rnd : Nat → ℚ) (s : SnakeGame) (d : Cell) (h : Reachable rnd s)
    (hd : s.direction = d) :
    keydown (keyFor (opposite d)) s = s ∧
    ∀ ks : List Key,
      (keydowns ks s).nextDirection ≠ opposite d ∧
      ∀ fuel s1, update rnd fuel (keydowns ks s) = some s1 → s1.direction ≠ opposite d := by
  have hs := reachable_sound rnd s h
  constructor
  · have hdir := hs.dir
    rw [hd] at hdir
    simp only [directions, List.mem_cons, List.mem_singleton, List.not_mem_nil,
      or_false] at hdir
    unfold keydown
    by_cases hrun : s.gameRunning = false
    · rw [if_pos hrun]
    · rw [if_neg hrun]
      rcases hdir with h1 | h1 | h1 | h1 <;> subst h1 <;>
        simp [keyFor, opposite, hd]
  · intro ks
    obtain ⟨hr, hdir⟩ := keydowns_spec rnd ks s h
    have hnr := (reachable_sound rnd _ hr).noReverse
    rw [hdir, hd] at hnr
    refine ⟨hnr, ?_⟩
    intro fuel s1 hupd
    rw [update_direction rnd fuel _ s1 hupd]
    exact hnr

/-- C4 on the page right after construction, heading `(1, 0)`: `ArrowLeft` changes nothing,
and no key sequence makes the next tick commit `(-1, 0)`. -/
theorem no_reversal_witness :
    keydown (keyFor (opposite ⟨1, 0⟩)) started = started ∧
    ∀ ks : List Key,
      (keydowns ks started).nextDirection ≠ opposite ⟨1, 0⟩ ∧
      ∀ fuel s1, update rndZero fuel (keydowns ks started) = some s1 →
        s1.direction ≠ opposite ⟨1, 0⟩ :=
  no_reversal rndZero started ⟨1, 0⟩ reachable_started rfl

/-- The candidate apple only depends on the grid size and on the position in the random
stream. -/
theorem candidate_congr (rnd : Nat → ℚ) (s s1 : SnakeGame) (hw : s1.gridWidth = s.gridWidth)
    (hh : s1.gridHeight = s.gridHeight) (hc : s1.randomCalls = s.randomCalls) :
    candidate rnd s1 = candidate rnd s := by
  unfold candidate
  rw [hw, hh, hc]

/-- C6, counterexample.  From the constructor's object with every draw `0`, `startGame()`
returns with the snake at `[(21,25),(20,25),(19,25)]`, not at `[(20,25),(19,25),(18,25)]`:
its final `gameLoop()` call has already run the first tick. -/
theorem startGame_already_ticked :
    startGame rndZero 1 constructed = some started ∧
    started.snake = [⟨21, 25⟩, ⟨20, 25⟩, ⟨19, 25⟩] ∧
    started.snake ≠ [⟨20, 25⟩, ⟨19, 25⟩, ⟨18, 25⟩] := by
  refine ⟨by decide!, rfl, by decide⟩

/-- `generateApple_isSome` with the candidate and the snake named from outside. -/
theorem generateApple_isSome_of (rnd : Nat → ℚ) (k fuel : Nat) (s : SnakeGame) (c : Cell)
    (cells : List Cell) (hk : k < fuel)
    (hc : candidate rnd { s with randomCalls := s.randomCalls + 2 * k } = c)
    (hs : s.snake = cells) (hfree : c ∉ cells) :
    (generateApple rnd fuel s).isSome = true := by
  subst hc
  subst hs
  exact generateApple_isSome rnd k fuel s hk hfree

set_option maxRecDepth 1000000 in
/-- The interval after the first apple: `150 * 0.9` is exactly 135 in doubles. -/
theorem first_interval : max (50 : ℚ) (toDouble (150 * toDouble (9 / 10))) = 135 := by
  decide!

/-- The tick `startGame()` runs through `gameLoop()` on the 40 × 50 grid: the head moves
from `(20,25)` to `(21,25)`, which is on the grid and off the snake, so only the apple
decides between a plain move and a meal. -/
theorem first_tick (rnd : Nat → ℚ) (fuel : Nat) (s0 : SnakeGame)
    (hw : s0.gridWidth = 40) (hh : s0.gridHeight = 50)
    (hsn : s0.snake = [⟨20, 25⟩, ⟨19, 25⟩, ⟨18, 25⟩]) (hnd : s0.nextDirection = ⟨1, 0⟩) :
    update rnd fuel s0 =
      if (⟨21, 25⟩ : Cell) = s0.apple then
        (generateApple rnd fuel
          { s0 with direction := ⟨1, 0⟩, snake := startCells, score := s0.score + 1 }).map levelUp
      else
        some { s0 with direction := ⟨1, 0⟩, snake := [⟨21, 25⟩, ⟨20, 25⟩, ⟨19, 25⟩] } := by
  have hnh : nextHead ⟨20, 25⟩ s0.nextDirection = ⟨21, 25⟩ := by rw [hnd]; rfl
  have hcol : ¬ (outside s0 (nextHead ⟨20, 25⟩ s0.nextDirection) ∨
      nextHead ⟨20, 25⟩ s0.nextDirection ∈ s0.snake) := by
    rw [hnh, hsn]
    unfold outside
    rw [hw, hh]
    decide
  rw [update_cons rnd fuel s0 ⟨20, 25⟩ [⟨19, 25⟩, ⟨18, 25⟩] hsn, if_neg hcol, hnh, hnd, hsn]
  rfl

/-- C6, as amended.  On the 40 × 50 grid and from any prior state: the state `s0` that
`startGame()` has built when it calls `gameLoop()` (line 126) has the snake
`[(20,25),(19,25),(18,25)]` (the centre cell and its two left neighbours), both directions
`(1,0)`, score 0, level 1, tick interval 150, `gameRunning` true and an apple off the
snake.  `gameLoop()` then runs the first tick at once, so the state `s1` that `startGame()`
returns has the snake `[(21,25),(20,25),(19,25)]` with score 0, level 1 and interval 150
when the apple was not placed at `(21,25)`, and `[(21,25),(20,25),(19,25),(18,25)]` with
score 1, level 2 and interval 135 when it was; in both cases the directions are `(1,0)`,
`gameRunning` is true and the apple is off the snake.  And `startGame()` does return if
the random source never offers `bound` candidates in a row inside the four start cells and
the fuel is at least `bound`. -/
theorem startGame_post (rnd : Nat → ℚ) (s : SnakeGame) (hw : s.gridWidth = 40)
    (hh : s.gridHeight = 50) :
    (∀ fuel s1, startGame rnd fuel s = some s1 →
      ∃ s0, generateApple rnd fuel (resetFields s) = some s0 ∧
        gameLoop rnd fuel s0 = some s1 ∧
        s0.snake = [⟨s.gridWidth / 2, s.gridHeight / 2⟩, ⟨s.gridWidth / 2 - 1, s.gridHeight / 2⟩,
          ⟨s.gridWidth / 2 - 2, s.gridHeight / 2⟩] ∧
        s0.snake = [⟨20, 25⟩, ⟨19, 25⟩, ⟨18, 25⟩] ∧
        s0.direction = ⟨1, 0⟩ ∧ s0.nextDirection = ⟨1, 0⟩ ∧ s0.score = 0 ∧ s0.level = 1 ∧
        s0.gameSpeed = 150 ∧ s0.gameRunning = true ∧ s0.apple ∉ s0.snake ∧
        s1.direction = ⟨1, 0⟩ ∧ s1.nextDirection = ⟨1, 0⟩ ∧ s1.gameRunning = true ∧
        s1.apple ∉ s1.snake ∧
        ((s0.apple ≠ ⟨21, 25⟩ ∧ s1.snake = [⟨21, 25⟩, ⟨20, 25⟩, ⟨19, 25⟩] ∧ s1.score = 0 ∧
            s1.level = 1 ∧ s1.gameSpeed = 150 ∧ s1.apple = s0.apple) ∨
          (s0.apple = ⟨21, 25⟩ ∧ s1.snake = [⟨21, 25⟩, ⟨20, 25⟩, ⟨19, 25⟩, ⟨18, 25⟩] ∧
            s1.score = 1 ∧ s1.level = 2 ∧ s1.gameSpeed = 135))) ∧
    (∀ bound,
      (∀ m, ∃ k, k < bound ∧
        candidate rnd { s with randomCalls := m + 2 * k } ∉ startCells) →
      ∀ fuel, bound ≤ fuel → (startGame rnd fuel s).isSome = true) := by
  have hreset : (resetFields s).snake = [⟨20, 25⟩, ⟨19, 25⟩, ⟨18, 25⟩] := by
    simp [resetFields, hw, hh]
  constructor
  · intro fuel s1 h
    unfold startGame at h
    rw [Option.bind_eq_some] at h
    obtain ⟨s0, hgen, hloop⟩ := h
    obtain ⟨k, hk, hoff⟩ := generateApple_some hgen
    have hsn0 : s0.snake = (resetFields s).snake := by rw [hk]
    have hsn : s0.snake = [⟨20, 25⟩, ⟨19, 25⟩, ⟨18, 25⟩] := hsn0.trans hreset
    have hgw : s0.gridWidth = 40 := by rw [hk]; exact hw
    have hgh : s0.gridHeight = 50 := by rw [hk]; exact hh
    have hd : s0.direction = ⟨1, 0⟩ := by rw [hk]; rfl
    have hnd : s0.nextDirection = ⟨1, 0⟩ := by rw [hk]; rfl
    have hsc : s0.score = 0 := by rw [hk]; rfl
    have hlv : s0.level = 1 := by rw [hk]; rfl
    have hgs : s0.gameSpeed = 150 := by rw [hk]; rfl
    have hrun : s0.gameRunning = true := by rw [hk]; rfl
    have hoff0 : s0.apple ∉ s0.snake := by rw [hsn0]; exact hoff
    refine ⟨s0, hgen, hloop, by rw [hsn, hw, hh]; rfl, hsn, hd, hnd, hsc, hlv, hgs, hrun,
      hoff0, ?_⟩
    unfold gameLoop at hloop
    rw [if_neg (by rw [hrun]; decide), Option.map_eq_some'] at hloop
    obtain ⟨s2, hupd, rfl⟩ := hloop
    rw [first_tick rnd fuel s0 hgw hgh hsn hnd] at hupd
    by_cases happle : (⟨21, 25⟩ : Cell) = s0.apple
    · rw [if_pos happle, Option.map_eq_some'] at hupd
      obtain ⟨s3, hgen3, rfl⟩ := hupd
      obtain ⟨j, hj, hoff3⟩ := generateApple_some hgen3
      have h3sn : s3.snake = startCells := by rw [hj]
      have h3d : s3.direction = ⟨1, 0⟩ := by rw [hj]
      have h3nd : s3.nextDirection = ⟨1, 0⟩ := by rw [hj]; exact hnd
      have h3r : s3.gameRunning = true := by rw [hj]; exact hrun
      have h3sc : s3.score = 1 := by rw [hj]; show s0.score + 1 = 1; rw [hsc]
      have h3lv : s3.level = 1 := by rw [hj]; exact hlv
      have h3gs : s3.gameSpeed = 150 := by rw [hj]; exact hgs
      refine ⟨h3d, h3nd, h3r, ?_, Or.inr ⟨happle.symm, h3sn, h3sc, ?_, ?_⟩⟩
      · show s3.apple ∉ s3.snake
        rw [h3sn]; exact hoff3
      · show s3.level + 1 = 2
        rw [h3lv]
      · show max 50 (toDouble (s3.gameSpeed * toDouble (9 / 10))) = 135
        rw [h3gs]
        exact first_interval
    · rw [if_neg happle, Option.some.injEq] at hupd
      subst hupd
      refine ⟨rfl, hnd, hrun, ?_, Or.inl ⟨fun h => happle h.symm, rfl, hsc, hlv, hgs, rfl⟩⟩
      show s0.apple ∉ [(⟨21, 25⟩ : Cell), ⟨20, 25⟩, ⟨19, 25⟩]
      intro hmem
      rcases List.mem_cons.mp hmem with h1 | h1
      · exact happle h1.symm
      · apply hoff0
        rw [hsn]
        simp only [List.mem_cons, List.mem_singleton, List.not_mem_nil, or_false] at h1 ⊢
        tauto
  · intro bound hfair fuel hfuel
    obtain ⟨k, hk, hoffk⟩ := hfair s.randomCalls
    have hgen : (generateApple rnd fuel (resetFields s)).isSome = true := by
      exact generateApple_isSome_of rnd k fuel (resetFields s) _ _ (by omega)
        (candidate_congr rnd { s with randomCalls := s.randomCalls + 2 * k } _ rfl rfl rfl)
        hreset (fun hmem => hoffk (List.mem_cons_of_mem _ hmem))
    obtain ⟨s0, hs0⟩ := Option.isSome_iff_exists.mp hgen
    obtain ⟨i, hi, -⟩ := generateApple_some hs0
    have hsn : s0.snake = [⟨20, 25⟩, ⟨19, 25⟩, ⟨18, 25⟩] := by rw [hi]; exact hreset
    have hgw : s0.gridWidth = 40 := by rw [hi]; exact hw
    have hgh : s0.gridHeight = 50 := by rw [hi]; exact hh
    have hnd : s0.nextDirection = ⟨1, 0⟩ := by rw [hi]; rfl
    have hrun : s0.gameRunning = true := by rw [hi]; rfl
    unfold startGame
    rw [hs0, Option.some_bind]
    unfold gameLoop
    rw [if_neg (by rw [hrun]; decide), Option.isSome_map',
      first_tick rnd fuel s0 hgw hgh hsn hnd]
    by_cases happle : (⟨21, 25⟩ : Cell) = s0.apple
    · rw [if_pos happle, Option.isSome_map']
      obtain ⟨j, hj, hoffj⟩ := hfair s0.randomCalls
      exact generateApple_isSome_of rnd j fuel _ _ _ (by omega)
        (candidate_congr rnd { s with randomCalls := s0.randomCalls + 2 * j } _
          (by rw [hw]; exact hgw) (by rw [hh]; exact hgh) rfl)
        rfl hoffj
    · rw [if_neg happle]
      rfl

/-- C6 as amended, from the constructor's object with every draw `0` (each candidate is
`(0,0)`, so one attempt is enough). -/
theorem startGame_post_witness :
    (∀ fuel s1, startGame rndZero fuel constructed = some s1 →
      ∃ s0, generateApple rndZero fuel (resetFields constructed) = some s0 ∧
        gameLoop rndZero fuel s0 = some s1 ∧
        s0.snake = [⟨constructed.gridWidth / 2, constructed.gridHeight / 2⟩,
          ⟨constructed.gridWidth / 2 - 1, constructed.gridHeight / 2⟩,
          ⟨constructed.gridWidth / 2 - 2, constructed.gridHeight / 2⟩] ∧
        s0.snake = [⟨20, 25⟩, ⟨19, 25⟩, ⟨18, 25⟩] ∧
        s0.direction = ⟨1, 0⟩ ∧ s0.nextDirection = ⟨1, 0⟩ ∧ s0.score = 0 ∧ s0.level = 1 ∧
        s0.gameSpeed = 150 ∧ s0.gameRunning = true ∧ s0.apple ∉ s0.snake ∧
        s1.direction = ⟨1, 0⟩ ∧ s1.nextDirection = ⟨1, 0⟩ ∧ s1.gameRunning = true ∧
        s1.apple ∉ s1.snake ∧
        ((s0.apple ≠ ⟨21, 25⟩ ∧ s1.snake = [⟨21, 25⟩, ⟨20, 25⟩, ⟨19, 25⟩] ∧ s1.score = 0 ∧
            s1.level = 1 ∧ s1.gameSpeed = 150 ∧ s1.apple = s0.apple) ∨
          (s0.apple = ⟨21, 25⟩ ∧ s1.snake = [⟨21, 25⟩, ⟨20, 25⟩, ⟨19, 25⟩, ⟨18, 25⟩] ∧
            s1.score = 1 ∧ s1.level = 2 ∧ s1.gameSpeed = 135))) ∧
    (∀ bound,
      (∀ m, ∃ k, k < bound ∧
        candidate rndZero { constructed with randomCalls := m + 2 * k } ∉ startCells) →
      ∀ fuel, bound ≤ fuel → (startGame rndZero fuel constructed).isSome = true) :=
  startGame_post rndZero constructed rfl rfl

set_option maxRecDepth 1000000 in
/-- `tourIndex` numbers the cells of `tour` from 0 to 1999. -/
theorem tour_index : tour.map tourIndex = (List.range 2000).map Int.ofNat := by decide!

set_option maxRecDepth 1000000 in
/-- Consecutive cells of `tour` are one unit step apart. -/
theorem tour_steps : stepsOk tour = true := by decide!

set_option maxRecDepth 1000000 in
/-- Every cell of `tour` is on the 40 × 50 grid. -/
theorem tour_grid : ∀ c ∈ tour, inGrid constructed c := by decide!

/-- `tour` has 2000 cells. -/
theorem tour_length : tour.length = 2000 := by
  have h := congrArg List.length tour_index
  simpa using h

/-- `tour` visits no cell twice. -/
theorem tour_nodup : tour.Nodup := by
  have h : (tour.map tourIndex).Nodup := by
    rw [tour_index]
    exact (List.nodup_range 2000).map (fun a b h => Int.ofNat.inj h)
  exact h.of_map

/-- Under `rndTour` the constructor leaves the page in `tourStart`. -/
theorem init_tourStart : init rndTour 1 constructed = some tourStart := by decide!

/-- The middle of cell number `x` out of `n`, scaled to the unit interval and back. -/
theorem mathFloor_middle (x n : Int) (hn : 0 < n) :
    mathFloor ((2 * (x : ℚ) + 1) / (2 * n) * n) = x := by
  have hn' : (n : ℚ) ≠ 0 := by exact_mod_cast hn.ne'
  have e : (2 * (x : ℚ) + 1) / (2 * n) * n = x + 1 / 2 := by
    field_simp
    ring
  unfold mathFloor
  rw [e, Int.floor_eq_iff]
  constructor <;> linarith

/-- The cell `rndTour` encodes at an even position `2 * j` is cell `3 + j` of `tour`. -/
theorem tour_getD_grid (i : Nat) : inGrid constructed (tour.getD i ⟨0, 0⟩) := by
  by_cases h : i < tour.length
  · rw [List.getD_eq_getElem _ _ h]
    exact tour_grid _ (List.getElem_mem _)
  · rw [List.getD_eq_default _ _ (by omega)]
    decide

/-- `rndTour` stays in `[0, 1)`. -/
theorem unitRange_rndTour : UnitRange rndTour := by
  intro n
  have hg := tour_getD_grid (3 + n / 2)
  unfold inGrid at hg
  obtain ⟨hx0, hx1, hy0, hy1⟩ := hg
  have hx0' : (0 : ℚ) ≤ ((tour.getD (3 + n / 2) ⟨0, 0⟩).x : ℚ) := by exact_mod_cast hx0
  have hx1i : (tour.getD (3 + n / 2) ⟨0, 0⟩).x ≤ 39 := by
    have : (tour.getD (3 + n / 2) ⟨0, 0⟩).x < 40 := hx1
    omega
  have hy1i : (tour.getD (3 + n / 2) ⟨0, 0⟩).y ≤ 49 := by
    have : (tour.getD (3 + n / 2) ⟨0, 0⟩).y < 50 := hy1
    omega
  have hx1' : ((tour.getD (3 + n / 2) ⟨0, 0⟩).x : ℚ) ≤ 39 := by exact_mod_cast hx1i
  have hy0' : (0 : ℚ) ≤ ((tour.getD (3 + n / 2) ⟨0, 0⟩).y : ℚ) := by exact_mod_cast hy0
  have hy1' : ((tour.getD (3 + n / 2) ⟨0, 0⟩).y : ℚ) ≤ 49 := by exact_mod_cast hy1i
  unfold rndTour
  simp only
  split_ifs
  · constructor
    · apply div_nonneg <;> linarith
    · rw [div_lt_one (by norm_num)]; linarith
  · constructor
    · apply div_nonneg <;> linarith
    · rw [div_lt_one (by norm_num)]; linarith

/-- On the 40 × 50 grid, after `2 * j` draws, the next candidate under `rndTour` is cell
`3 + j` of `tour`. -/
theorem candidate_rndTour (s : SnakeGame) (j : Nat) (hw : s.gridWidth = 40)
    (hh : s.gridHeight = 50) (hc : s.randomCalls = 2 * j) :
    candidate rndTour s = tour.getD (3 + j) ⟨0, 0⟩ := by
  have e0 : (2 * j) / 2 = j := by omega
  have e1 : (2 * j + 1) / 2 = j := by omega
  have m0 : (2 * j) % 2 = 0 := by omega
  have m1 : (2 * j + 1) % 2 ≠ 0 := by omega
  have hx := mathFloor_middle (tour.getD (3 + j) ⟨0, 0⟩).x 40 (by decide)
  have hy := mathFloor_middle (tour.getD (3 + j) ⟨0, 0⟩).y 50 (by decide)
  unfold candidate rndTour
  simp only [hw, hh, hc, e0, e1, m0, m1, if_true, if_false]
  norm_num at hx hy ⊢
  rw [hx, hy]

/-- While the game runs and no turn is pending, the key for a unit direction that is not
the reverse of the committed one makes that direction the pending one. -/
theorem keydown_keyFor (s : SnakeGame) (d : Cell) (hrun : s.gameRunning = true)
    (hdir : s.direction ∈ directions) (hd : d ∈ directions)
    (hne : d ≠ opposite s.direction) (hp : s.nextDirection = s.direction) :
    keydown (keyFor d) s = { s with nextDirection := d } := by
  rcases s with ⟨run, sc, lv, sp, gs, w, h, sn, dir, nd, ap, c1, c2, ov, pt, rc⟩
  simp only at hrun hdir hne hp
  subst hrun hp
  simp only [directions, List.mem_cons, List.mem_singleton, List.not_mem_nil, or_false]
    at hdir hd
  rcases hdir with rfl | rfl | rfl | rfl <;> rcases hd with rfl | rfl | rfl | rfl <;>
    first
      | exact absurd rfl hne
      | rfl

/-- A timer tick that eats the apple, when the first candidate for the next apple is off
the grown snake: one loop iteration is enough. -/
theorem timer_eats (rnd : Nat → ℚ) (s : SnakeGame) (first : Cell) (rest : List Cell)
    (c : Cell) (hrun : s.gameRunning = true) (ht : s.pendingTimers = 1)
    (hsnake : s.snake = first :: rest) (hin : inGrid s s.apple) (hfree : s.apple ∉ s.snake)
    (hhead : nextHead first s.nextDirection = s.apple) (hc : candidate rnd s = c)
    (hcfree : c ∉ s.apple :: s.snake) :
    ∃ s1, timerFires rnd 1 s = some s1 ∧ s1.gridWidth = s.gridWidth ∧
      s1.gridHeight = s.gridHeight ∧ s1.gameRunning = true ∧ s1.pendingTimers = 1 ∧
      s1.randomCalls = s.randomCalls + 2 ∧ s1.snake = s.apple :: s.snake ∧ s1.apple = c ∧
      s1.direction = s.nextDirection ∧ s1.nextDirection = s.nextDirection := by
  have hcol : ¬ (outside { s with pendingTimers := s.pendingTimers - 1 }
        (nextHead first s.nextDirection) ∨ nextHead first s.nextDirection ∈ s.snake) := by
    rw [hhead]
    exact not_or.mpr ⟨(not_outside_iff _ _).mpr hin, hfree⟩
  have hocc : occupies (s.apple :: s.snake)
      (candidate rnd
        { s with
          pendingTimers := s.pendingTimers - 1
          direction := s.nextDirection
          snake := s.apple :: s.snake
          score := s.score + 1 }) = false := by
    have e : candidate rnd
        { s with
          pendingTimers := s.pendingTimers - 1
          direction := s.nextDirection
          snake := s.apple :: s.snake
          score := s.score + 1 } = c := hc
    rw [e]; exact (occupies_eq_false_iff _ _).mpr hcfree
  unfold timerFires
  rw [if_neg (by rw [ht]; decide)]
  unfold gameLoop
  rw [if_neg (by show ¬ s.gameRunning = false; rw [hrun]; decide)]
  rw [update_cons rnd 1 { s with pendingTimers := s.pendingTimers - 1 } first rest hsnake,
    if_neg hcol, if_pos hhead, generateApple]
  simp only [hhead]
  rw [hocc]
  simp only [Bool.false_eq_true, if_false, Option.map_some']
  exact ⟨_, rfl, rfl, rfl, hrun, by show s.pendingTimers - 1 + 1 = 1; rw [ht], rfl, rfl, hc,
    rfl, rfl⟩

/-- In a list that passes `stepsOk`, any two neighbours are one unit step apart. -/
theorem stepsOk_append (l : List Cell) (a b : Cell) (r : List Cell)
    (h : stepsOk (l ++ a :: b :: r) = true) :
    (⟨b.x - a.x, b.y - a.y⟩ : Cell) ∈ directions := by
  induction l with
  | nil =>
    simp only [List.nil_append, stepsOk, Bool.and_eq_true, decide_eq_true_eq] at h
    exact h.1
  | cons x l ih =>
    cases l with
    | nil =>
      simp only [List.cons_append, List.nil_append, stepsOk, Bool.and_eq_true] at h
      exact ih (by simpa [stepsOk] using h.2)
    | cons y l =>
      simp only [List.cons_append, stepsOk, Bool.and_eq_true] at h
      exact ih (by simpa using h.2)

/-- A cell of the 40 × 50 grid is on the grid of every state of that size. -/
theorem inGrid_of_constructed (s : SnakeGame) (c : Cell) (hw : s.gridWidth = 40)
    (hh : s.gridHeight = 50) (h : inGrid constructed c) : inGrid s c := by
  unfold inGrid at h ⊢
  rw [hw, hh]
  exact h

/-- One key press and one timer tick move a game that follows `tour` one cell further. -/
theorem tour_step (s : SnakeGame) (body : List Cell) (apple next : Cell) (rest : List Cell)
    (hreach : Reachable rndTour s) (ht : tour = body.reverse ++ apple :: next :: rest)
    (hm : OnTour s body apple) :
    ∃ s1, Reachable rndTour s1 ∧ OnTour s1 (apple :: body) next := by
  obtain ⟨h, prev, t, hb, hdir⟩ := hm.heading
  have hnd := tour_nodup
  rw [ht, List.nodup_append] at hnd
  obtain ⟨-, hnd2, hdisj⟩ := hnd
  have happle : apple ∉ body := fun hmem =>
    hdisj (List.mem_reverse.mpr hmem) (List.mem_cons_self _ _)
  have hnext : next ∉ apple :: body := by
    intro hmem
    rcases List.mem_cons.mp hmem with h1 | h1
    · exact (List.nodup_cons.mp hnd2).1 (h1 ▸ List.mem_cons_self _ _)
    · exact hdisj (List.mem_reverse.mpr h1) (List.mem_cons_of_mem _ (List.mem_cons_self _ _))
  have hprev : apple ≠ prev := by
    intro heq
    apply happle
    rw [hb, heq]
    exact List.mem_cons_of_mem _ (List.mem_cons_self _ _)
  have hstep : (⟨apple.x - h.x, apple.y - h.y⟩ : Cell) ∈ directions := by
    apply stepsOk_append (prev :: t).reverse h apple (next :: rest)
    have e : tour = (prev :: t).reverse ++ h :: apple :: next :: rest := by
      rw [ht, hb, List.reverse_cons, List.append_assoc]
      rfl
    rw [← e]
    exact tour_steps
  have hrev : (⟨apple.x - h.x, apple.y - h.y⟩ : Cell) ≠ opposite s.direction := by
    intro heq
    rw [hdir] at heq
    simp only [opposite, Cell.mk.injEq] at heq
    apply hprev
    cases apple; cases prev
    simp only [Cell.mk.injEq] at heq ⊢
    omega
  have hga : inGrid s apple := inGrid_of_constructed s apple hm.width hm.height
    (tour_grid apple (by rw [ht]; simp))
  have hsound := reachable_sound rndTour s hreach
  have hkey := keydown_keyFor s ⟨apple.x - h.x, apple.y - h.y⟩ hm.running hsound.dir hstep hrev
    hm.pending
  have hreachK : Reachable rndTour (keydown (keyFor ⟨apple.x - h.x, apple.y - h.y⟩) s) :=
    Reachable.step 0 (Event.key _) s _ hreach rfl
  rw [hkey] at hreachK
  have hlen : body.length = t.length + 2 := by rw [hb]; rfl
  have hcand : candidate rndTour { s with nextDirection := ⟨apple.x - h.x, apple.y - h.y⟩ } =
      next := by
    rw [candidate_rndTour { s with nextDirection := ⟨apple.x - h.x, apple.y - h.y⟩ }
      (body.length - 2) hm.width hm.height
      (by have := hm.calls; show s.randomCalls = _; omega)]
    have e : 3 + (body.length - 2) = body.reverse.length + 1 := by
      rw [List.length_reverse]; omega
    rw [e, ht, List.getD_append_right _ _ _ _ (by omega)]
    simp
  have hhead : nextHead h (⟨apple.x - h.x, apple.y - h.y⟩ : Cell) = apple := by
    cases apple; cases h
    simp only [nextHead, Cell.mk.injEq]
    constructor <;> omega
  obtain ⟨s1, hfire, h1w, h1h, h1r, h1t, h1c, h1s, h1a, h1d, h1n⟩ :=
    timer_eats rndTour { s with nextDirection := ⟨apple.x - h.x, apple.y - h.y⟩ } h (prev :: t)
      next hm.running hm.timers (by show s.snake = _; rw [hm.snake, hb])
      (by show inGrid s s.apple; rw [hm.apple]; exact hga)
      (by show s.apple ∉ s.snake; rw [hm.apple, hm.snake]; exact happle)
      (by show nextHead h _ = s.apple; rw [hm.apple]; exact hhead)
      hcand
      (by show next ∉ s.apple :: s.snake; rw [hm.apple, hm.snake]; exact hnext)
  refine ⟨s1, Reachable.step 1 Event.timer _ s1 hreachK hfire, ?_⟩
  refine ⟨h1w.trans hm.width, h1h.trans hm.height, h1r, h1t, ?_, ?_, h1a, h1n.trans h1d.symm,
    ⟨apple, h, prev :: t, by rw [hb], h1d⟩⟩
  · rw [h1c, List.length_cons]
    have := hm.calls
    show s.randomCalls + 2 + 4 = _
    omega
  · rw [h1s]
    show s.apple :: s.snake = _
    rw [hm.apple, hm.snake]

/-- Membership in `gridCells` is the bounds test. -/
theorem mem_gridCells (c : Cell) :
    c ∈ gridCells ↔ 0 ≤ c.x ∧ c.x < 40 ∧ 0 ≤ c.y ∧ c.y < 50 := by
  unfold gridCells
  simp only [Finset.mem_image, Finset.mem_product, Finset.mem_Icc, Prod.exists]
  constructor
  · rintro ⟨a, b, ⟨⟨ha0, ha1⟩, hb0, hb1⟩, rfl⟩
    exact ⟨ha0, by show a < 40; omega, hb0, by show b < 50; omega⟩
  · rintro ⟨h0, h1, h2, h3⟩
    exact ⟨c.x, c.y, ⟨⟨h0, by omega⟩, h2, by omega⟩, rfl⟩

/-- The 40 × 50 grid has 2000 cells. -/
theorem card_gridCells : gridCells.card = 2000 := by
  unfold gridCells
  rw [Finset.card_image_of_injective, Finset.card_product, Int.card_Icc, Int.card_Icc]
  · rfl
  · intro p q h
    simp only [Cell.mk.injEq] at h
    exact Prod.ext h.1 h.2

/-- A list shorter than the grid misses a grid cell. -/
theorem exists_free_cell (cells : List Cell) (h : cells.length < 2000) :
    ∃ c, c ∈ gridCells ∧ c ∉ cells := by
  by_contra hall
  have hsub : gridCells ⊆ cells.toFinset := by
    intro c hc
    rw [List.mem_toFinset]
    by_contra hn
    exact hall ⟨c, hc, hn⟩
  have h1 := Finset.card_le_card hsub
  have h2 := List.toFinset_card_le cells
  rw [card_gridCells] at h1
  omega

/-- A duplicate-free list of grid cells has at most 2000 entries. -/
theorem length_le_grid (cells : List Cell) (hnd : cells.Nodup)
    (hg : ∀ c ∈ cells, c ∈ gridCells) : cells.length ≤ 2000 := by
  have hsub : cells.toFinset ⊆ gridCells := by
    intro c hc
    exact hg c (List.mem_toFinset.mp hc)
  have h1 := Finset.card_le_card hsub
  rw [List.toFinset_card_of_nodup hnd, card_gridCells] at h1
  exact h1

/-- A duplicate-free list of 2000 grid cells contains every grid cell. -/
theorem covers_grid (cells : List Cell) (hnd : cells.Nodup)
    (hg : ∀ c ∈ cells, c ∈ gridCells) (hlen : cells.length = 2000) :
    ∀ c, c ∈ gridCells → c ∈ cells := by
  have hsub : cells.toFinset ⊆ gridCells := by
    intro c hc
    exact hg c (List.mem_toFinset.mp hc)
  have heq : cells.toFinset = gridCells := by
    apply Finset.eq_of_subset_of_card_le hsub
    rw [List.toFinset_card_of_nodup hnd, card_gridCells, hlen]
  intro c hc
  rw [← heq] at hc
  exact List.mem_toFinset.mp hc

/-- On a fully occupied grid the loop of `generateApple()` never ends: whatever the fuel,
every candidate is on the snake. -/
theorem generateApple_full (rnd : Nat → ℚ) (hr : UnitRange rnd) :
    ∀ (fuel : Nat) (s : SnakeGame), 0 < s.gridWidth → 0 < s.gridHeight →
      (∀ c, inGrid s c → c ∈ s.snake) → generateApple rnd fuel s = none := by
  intro fuel
  induction fuel with
  | zero => intro s _ _ _; rfl
  | succ n ih =>
    intro s hw hh hfull
    have hocc : occupies s.snake (candidate rnd s) = true :=
      (occupies_eq_true_iff _ _).mpr (hfull _ (candidate_inGrid rnd hr s s rfl rfl hw hh))
    rw [generateApple]
    simp only [hocc, if_true]
    exact ih { s with randomCalls := s.randomCalls + 2 } hw hh hfull

/-- Driving along `tour` to its end: from any stage of the tour a stage is reachable at
which the apple is the last cell of `tour` and the snake is all the rest. -/
theorem tour_drive : ∀ (rest : List Cell) (s : SnakeGame) (body : List Cell) (apple : Cell),
    Reachable rndTour s → tour = body.reverse ++ apple :: rest → OnTour s body apple →
    ∃ s1 body1 apple1, Reachable rndTour s1 ∧ tour = body1.reverse ++ [apple1] ∧
      OnTour s1 body1 apple1 := by
  intro rest
  induction rest with
  | nil => intro s body apple hr ht hm; exact ⟨s, body, apple, hr, ht, hm⟩
  | cons next rest ih =>
    intro s body apple hr ht hm
    obtain ⟨s1, hr1, hm1⟩ := tour_step s body apple next rest hr ht hm
    apply ih s1 (apple :: body) next hr1 _ hm1
    rw [ht, List.reverse_cons, List.append_assoc]
    rfl

/-- `tourStart` is the stage of the tour after its first four cells. -/
theorem onTour_tourStart :
    OnTour tourStart [⟨21, 25⟩, ⟨20, 25⟩, ⟨19, 25⟩, ⟨18, 25⟩] ⟨22, 25⟩ :=
  ⟨rfl, rfl, rfl, rfl, rfl, rfl, rfl, rfl, ⟨⟨21, 25⟩, ⟨20, 25⟩, _, rfl, by decide⟩⟩

set_option maxRecDepth 1000000 in
/-- `tour` begins with the start snake, the first apple and the second apple. -/
theorem tour_begin :
    tour = [(⟨21, 25⟩ : Cell), ⟨20, 25⟩, ⟨19, 25⟩, ⟨18, 25⟩].reverse ++
      ⟨22, 25⟩ :: tour.drop 5 := by decide!

/-- A tick that eats the last free cell of the grid never returns: `update()` enters
`generateApple()` with every grid cell on the snake. -/
theorem update_hangs (rnd : Nat → ℚ) (hr : UnitRange rnd) (s : SnakeGame) (first : Cell)
    (rest : List Cell) (hw : 0 < s.gridWidth) (hh : 0 < s.gridHeight)
    (hsnake : s.snake = first :: rest) (hin : inGrid s s.apple) (hfree : s.apple ∉ s.snake)
    (hhead : nextHead first s.nextDirection = s.apple)
    (hfull : ∀ c, inGrid s c → c ∈ s.apple :: s.snake) (fuel : Nat) :
    update rnd fuel s = none := by
  have hcol : ¬ (outside s (nextHead first s.nextDirection) ∨
      nextHead first s.nextDirection ∈ s.snake) := by
    rw [hhead]
    exact not_or.mpr ⟨(not_outside_iff _ _).mpr hin, hfree⟩
  rw [update_cons rnd fuel s first rest hsnake, if_neg hcol, if_pos hhead,
    generateApple_full rnd hr fuel
      { s with
        direction := s.nextDirection
        snake := nextHead first s.nextDirection :: s.snake
        score := s.score + 1 } hw hh (by rw [hhead]; exact hfull)]
  rfl

set_option maxRecDepth 1000000 in
/-- The last three cells of `tour`, last first. -/
theorem tour_end : tour.reverse.take 3 = [⟨17, 25⟩, ⟨16, 25⟩, ⟨15, 25⟩] := by decide!

/-- The last stage of the tour: under `rndTour` a running game is reachable, one callback
armed, whose snake has 1999 cells, head at `(16,25)` heading `(1,0)`, and whose apple at
`(17,25)` is the only grid cell off the snake. -/
theorem tour_last_stage :
    ∃ s rest, Reachable rndTour s ∧ s.gridWidth = 40 ∧ s.gridHeight = 50 ∧
      s.gameRunning = true ∧ s.pendingTimers = 1 ∧ s.snake = ⟨16, 25⟩ :: rest ∧
      s.snake.length = 1999 ∧ s.nextDirection = ⟨1, 0⟩ ∧ s.apple = ⟨17, 25⟩ ∧
      s.apple ∉ s.snake ∧ (∀ c, inGrid s c → c ∈ s.apple :: s.snake) := by
  obtain ⟨s, body, apple, hreach, ht, hm⟩ :=
    tour_drive (tour.drop 5) tourStart _ _ (Reachable.construct 1 tourStart init_tourStart)
      tour_begin onTour_tourStart
  obtain ⟨h, prev, t, hb, hdir⟩ := hm.heading
  have hrevtour : tour.reverse = apple :: h :: prev :: t := by
    rw [ht, hb]; simp
  have hend := tour_end
  rw [hrevtour] at hend
  simp only [List.take_succ_cons, List.take_zero, List.cons.injEq, and_true] at hend
  obtain ⟨rfl, rfl, rfl⟩ := hend
  have hnext : s.nextDirection = ⟨1, 0⟩ := by rw [hm.pending, hdir]; rfl
  have hlen : s.snake.length = 1999 := by
    have h1 := tour_length
    rw [ht, List.length_append, List.length_reverse] at h1
    rw [hm.snake]
    simpa using h1
  have hnd := tour_nodup
  rw [ht, List.nodup_append] at hnd
  have hfree : s.apple ∉ s.snake := by
    rw [hm.apple, hm.snake]
    intro hmem
    exact hnd.2.2 (List.mem_reverse.mpr hmem) (List.mem_singleton_self _)
  have htg : ∀ c ∈ tour, c ∈ gridCells := by
    intro c hc
    exact (mem_gridCells c).mpr (tour_grid c hc)
  have hfull : ∀ c, inGrid s c → c ∈ s.apple :: s.snake := by
    intro c hc
    unfold inGrid at hc
    rw [hm.width, hm.height] at hc
    have hmem := covers_grid tour tour_nodup htg tour_length c ((mem_gridCells c).mpr hc)
    rw [ht] at hmem
    rw [hm.apple, hm.snake]
    rcases List.mem_append.mp hmem with h1 | h1
    · exact List.mem_cons_of_mem _ (List.mem_reverse.mp h1)
    · rw [List.mem_singleton.mp h1]
      exact List.mem_cons_self _ _
  exact ⟨s, ⟨15, 25⟩ :: t, hreach, hm.width, hm.height, hm.running, hm.timers,
    by rw [hm.snake, hb], hlen, hnext, hm.apple, hfree, hfull⟩

/-- C1, counterexample.  Under `rndTour` a running state is reachable that meets every
condition of the apple-eating tick (the next head `(17,25)` is on the grid, off the
pre-tick snake and equal to the apple) and on which `update()` never returns, whatever the
random source in `[0, 1)` and whatever the fuel: the grown snake fills the grid, so every
candidate of `generateApple()` is on it. -/
theorem eating_tick_never_returns :
    ∃ s first rest, Reachable rndTour s ∧ s.gameRunning = true ∧ s.snake = first :: rest ∧
      inGrid s (nextHead first s.nextDirection) ∧
      nextHead first s.nextDirection ∉ s.snake ∧
      nextHead first s.nextDirection = s.apple ∧
      (∀ rnd, UnitRange rnd → ∀ fuel, update rnd fuel s = none) ∧
      (∀ rnd, UnitRange rnd → ∀ k,
        candidate rnd { s with randomCalls := s.randomCalls + 2 * k } ∈
          nextHead first s.nextDirection :: s.snake) := by
  obtain ⟨s, rest, hreach, hw, hh, hrun, -, hsn, -, hnext, happle, hfree, hfull⟩ :=
    tour_last_stage
  have hhead : nextHead ⟨16, 25⟩ s.nextDirection = s.apple := by
    rw [hnext, happle]; rfl
  have hin : inGrid s s.apple := by
    unfold inGrid
    rw [happle, hw, hh]
    decide
  have hwp : 0 < s.gridWidth := by rw [hw]; decide
  have hhp : 0 < s.gridHeight := by rw [hh]; decide
  refine ⟨s, ⟨16, 25⟩, rest, hreach, hrun, hsn, by rw [hhead]; exact hin,
    by rw [hhead]; exact hfree, hhead, ?_, ?_⟩
  · intro rnd hr fuel
    exact update_hangs rnd hr s ⟨16, 25⟩ rest hwp hhp hsn hin hfree hhead hfull fuel
  · intro rnd hr k
    rw [hhead]
    exact hfull _ (candidate_inGrid rnd hr s _ rfl rfl hwp hhp)

/-- C9, counterexample.  Under the random source `rndTour`, which stays in `[0, 1)`, a
running game is reachable whose snake has 1999 = 40 × 50 − 1 cells, head at `(16,25)`
heading `(1,0)`, and whose apple at `(17,25)` is the only free cell of the grid.  The next
tick eats it, so `generateApple()` runs with no free cell at all, and neither `update()`
nor the timer callback returns, whatever the fuel. -/
theorem full_grid_hang :
    UnitRange rndTour ∧
    ∃ s rest, Reachable rndTour s ∧ s.gameRunning = true ∧ s.pendingTimers = 1 ∧
      s.snake = ⟨16, 25⟩ :: rest ∧ s.snake.length = 1999 ∧ s.nextDirection = ⟨1, 0⟩ ∧
      s.apple = ⟨17, 25⟩ ∧ nextHead ⟨16, 25⟩ s.nextDirection = s.apple ∧
      s.apple ∉ s.snake ∧
      (∀ c, inGrid s c → c ∈ nextHead ⟨16, 25⟩ s.nextDirection :: s.snake) ∧
      (∀ fuel, update rndTour fuel s = none) ∧
      (∀ fuel, timerFires rndTour fuel s = none) := by
  refine ⟨unitRange_rndTour, ?_⟩
  obtain ⟨s, rest, hreach, hw, hh, hrun, htimers, hsn, hlen, hnext, happle, hfree, hfull⟩ :=
    tour_last_stage
  have hhead : nextHead ⟨16, 25⟩ s.nextDirection = s.apple := by
    rw [hnext, happle]; rfl
  have hin : inGrid s s.apple := by
    unfold inGrid
    rw [happle, hw, hh]
    decide
  have hupd : ∀ (n : Nat) (fuel : Nat),
      update rndTour fuel { s with pendingTimers := n } = none := fun n fuel =>
    update_hangs rndTour unitRange_rndTour { s with pendingTimers := n } ⟨16, 25⟩ rest
      (by show 0 < s.gridWidth; rw [hw]; decide)
      (by show 0 < s.gridHeight; rw [hh]; decide) hsn hin hfree hhead hfull fuel
  refine ⟨s, rest, hreach, hrun, htimers, hsn, hlen, hnext, happle, hhead,
    hfree, by rw [hhead]; exact hfull, ?_, ?_⟩
  · intro fuel
    exact hupd s.pendingTimers fuel
  · intro fuel
    unfold timerFires
    rw [if_neg (by rw [htimers]; decide)]
    unfold gameLoop
    rw [if_neg (by show ¬ s.gameRunning = false; rw [hrun]; decide), hupd]
    rfl

/-- C9, as amended.  With a random source in `[0, 1)`, in every reachable state the snake
is strictly shorter than `gridWidth × gridHeight`, the apple being a free cell of the grid.
When an eating tick runs `generateApple()` the snake has already grown by the new head:
if the pre-tick length is below `gridWidth × gridHeight − 1` the grown snake still leaves
a grid cell free, so the loop can terminate; if the pre-tick length is exactly
`gridWidth × gridHeight − 1` the grown snake fills the grid and `update()` never returns,
whatever the fuel. -/
theorem snake_below_capacity (rnd : Nat → ℚ) (hr : UnitRange rnd) (s : SnakeGame)
    (h : Reachable rnd s) :
    (s.snake.length : Int) < s.gridWidth * s.gridHeight ∧
    (inGrid s s.apple ∧ s.apple ∉ s.snake) ∧
    (∀ head : Cell, (s.snake.length : Int) + 1 < s.gridWidth * s.gridHeight →
      ∃ c, inGrid s c ∧ c ∉ head :: s.snake) ∧
    (∀ first rest, s.snake = first :: rest → nextHead first s.nextDirection = s.apple →
      (s.snake.length : Int) + 1 = s.gridWidth * s.gridHeight →
      ∀ fuel, update rnd fuel s = none) := by
  have hs := reachable_sound rnd s h
  have hgrid : ∀ c, inGrid s c ↔ c ∈ gridCells := by
    intro c
    rw [mem_gridCells]
    unfold inGrid
    rw [hs.width, hs.height]
  have hnd : (s.apple :: s.snake).Nodup := List.nodup_cons.mpr ⟨hs.appleFree, hs.nodup⟩
  have hall : ∀ c ∈ s.apple :: s.snake, c ∈ gridCells := by
    intro c hc
    rcases List.mem_cons.mp hc with rfl | hc
    · exact (hgrid _).mp (hs.appleOnGrid hr)
    · exact (hgrid c).mp (hs.onGrid c hc)
  have hle := length_le_grid _ hnd hall
  rw [List.length_cons] at hle
  rw [hs.width, hs.height]
  refine ⟨by omega, ⟨hs.appleOnGrid hr, hs.appleFree⟩, ?_, ?_⟩
  · intro head hlt
    obtain ⟨c, hc, hfree⟩ := exists_free_cell (head :: s.snake)
      (by rw [List.length_cons]; omega)
    exact ⟨c, (hgrid c).mpr hc, hfree⟩
  · intro first rest hsnake hhead hlen fuel
    have hcov := covers_grid _ hnd hall (by rw [List.length_cons]; omega)
    exact update_hangs rnd hr s first rest (by rw [hs.width]; decide)
      (by rw [hs.height]; decide) hsnake (hs.appleOnGrid hr) hs.appleFree hhead
      (fun c hc => hcov c ((hgrid c).mp hc)) fuel

/-- C9 as amended, on the page right after construction with every draw `0`. -/
theorem snake_below_capacity_witness :
    (started.snake.length : Int) < started.gridWidth * started.gridHeight ∧
    (inGrid started started.apple ∧ started.apple ∉ started.snake) ∧
    (∀ head : Cell,
      (started.snake.length : Int) + 1 < started.gridWidth * started.gridHeight →
      ∃ c, inGrid started c ∧ c ∉ head :: started.snake) ∧
    (∀ first rest, started.snake = first :: rest →
      nextHead first started.nextDirection = started.apple →
      (started.snake.length : Int) + 1 = started.gridWidth * started.gridHeight →
      ∀ fuel, update rndZero fuel started = none) :=
  snake_below_capacity rndZero unitRange_rndZero started reachable_started

/-- `update()` arms no timer and fires none. -/
theorem update_pendingTimers (rnd : Nat → ℚ) (fuel : Nat) (s s1 : SnakeGame)
    (h : update rnd fuel s = some s1) : s1.pendingTimers = s.pendingTimers := by
  cases hsn : s.snake with
  | nil =>
    unfold update at h
    simp only [hsn, Option.some.injEq] at h
    rw [← h]
  | cons first rest =>
    rw [update_cons rnd fuel s first rest hsn] at h
    split_ifs at h with h1 h2
    · rw [Option.some.injEq] at h; rw [← h]; rfl
    · rw [Option.map_eq_some'] at h
      obtain ⟨s2, hgen, rfl⟩ := h
      obtain ⟨k, hk, -⟩ := generateApple_some hgen
      show s2.pendingTimers = _
      rw [hk]
    · rw [Option.some.injEq] at h; rw [← h]

/-- `gameLoop()` on a running game arms exactly one callback; on a stopped game it arms
none. -/
theorem gameLoop_pendingTimers (rnd : Nat → ℚ) (fuel : Nat) (s s1 : SnakeGame)
    (h : gameLoop rnd fuel s = some s1) :
    (s.gameRunning = true → s1.pendingTimers = s.pendingTimers + 1) ∧
    (s.gameRunning = false → s1 = s) := by
  unfold gameLoop at h
  by_cases hrun : s.gameRunning = false
  · rw [if_pos hrun, Option.some.injEq] at h
    refine ⟨fun h1 => ?_, fun _ => h.symm⟩
    rw [hrun] at h1
    cases h1
  · rw [if_neg hrun, Option.map_eq_some'] at h
    obtain ⟨s2, hupd, rfl⟩ := h
    refine ⟨fun _ => ?_, fun h1 => absurd h1 hrun⟩
    show s2.pendingTimers + 1 = _
    rw [update_pendingTimers rnd fuel s s2 hupd]

/-- As long as the restart button is not clicked the game has a single loop: at most one
`gameLoop` callback is pending, and exactly one while the game runs.  (`run` takes its
events latest first.) -/
theorem one_timer_without_restart (rnd : Nat → ℚ) (fuel : Nat) (es : List Event) :
    Event.restart ∉ es → ∀ s, run rnd fuel es = some s →
      s.pendingTimers ≤ 1 ∧ (s.gameRunning = true → s.pendingTimers = 1) := by
  induction es with
  | nil =>
    intro _ s h
    simp only [run, init, startGame, Option.bind_eq_some] at h
    obtain ⟨s0, hgen, hloop⟩ := h
    obtain ⟨k, hk, -⟩ := generateApple_some hgen
    have hrun : s0.gameRunning = true := by rw [hk]; rfl
    have hp : s0.pendingTimers = 0 := by rw [hk]; rfl
    have h1 := (gameLoop_pendingTimers rnd fuel s0 s hloop).1 hrun
    rw [hp] at h1
    exact ⟨by omega, fun _ => h1⟩
  | cons e es ih =>
    intro hno s h
    rw [run, Option.bind_eq_some] at h
    obtain ⟨s0, h0, h1⟩ := h
    obtain ⟨hle, heq⟩ := ih (fun hm => hno (List.mem_cons_of_mem _ hm)) s0 h0
    cases e with
    | restart => exact absurd (List.mem_cons_self _ _) hno
    | key k =>
      simp only [handle, Option.some.injEq] at h1
      subst h1
      have hp : (keydown k s0).pendingTimers = s0.pendingTimers := by
        unfold keydown
        cases k <;> simp only <;> split_ifs <;> rfl
      have hr : (keydown k s0).gameRunning = s0.gameRunning := by
        unfold keydown
        cases k <;> simp only <;> split_ifs <;> rfl
      rw [hp, hr]
      exact ⟨hle, heq⟩
    | timer =>
      simp only [handle, timerFires] at h1
      by_cases hz : s0.pendingTimers = 0
      · rw [if_pos hz] at h1; cases h1
      · rw [if_neg hz] at h1
        obtain ⟨hrun, hstop⟩ := gameLoop_pendingTimers rnd fuel _ s h1
        cases hr : s0.gameRunning with
        | true =>
          have h2 := hrun hr
          have h3 : s.pendingTimers = s0.pendingTimers - 1 + 1 := h2
          have h4 := heq hr
          exact ⟨by omega, fun _ => by omega⟩
        | false =>
          have h2 := hstop hr
          subst h2
          refine ⟨?_, fun h3 => ?_⟩
          · show s0.pendingTimers - 1 ≤ 1
            omega
          · have h4 : s0.gameRunning = true := h3
            rw [hr] at h4; cases h4

/-- C10, the failing run.  With every draw `0`, 19 timer firings drive the snake into the
right wall: the game is over and the callback `gameLoop()` armed after the colliding
`update()` is still pending.  A restart click then arms a second callback while the first
is still armed, and both fire on the restarted game: after two firings the snake has
advanced two cells beyond the cell `(21,25)` of the restart, with two callbacks armed
again.  The same happens when the button is clicked while the game runs: right after
construction one click leaves two callbacks armed.  (`run` takes its events latest
first.) -/
theorem stale_timer_survives_restart :
    run rndZero 1 (List.replicate 19 Event.timer) = some crashed ∧
    crashed.gameRunning = false ∧ crashed.pendingTimers = 1 ∧
    (restartClick rndZero 1 crashed).map (fun s => (s.gameRunning, s.pendingTimers, s.snake)) =
      some (true, 2, [⟨21, 25⟩, ⟨20, 25⟩, ⟨19, 25⟩]) ∧
    (run rndZero 1 (Event.timer :: Event.timer :: Event.restart ::
        List.replicate 19 Event.timer)).map (fun s => (s.pendingTimers, s.snake)) =
      some (2, [⟨23, 25⟩, ⟨22, 25⟩, ⟨21, 25⟩]) ∧
    (run rndZero 1 [Event.restart]).map (fun s => (s.gameRunning, s.pendingTimers)) =
      some (true, 2) := by
  refine ⟨by decide!, rfl, rfl, by decide!, by decide!, by decide!⟩

end SnakeGame
